import Mathlib

/-!
First-order-logic terms and formulas with hash-consing (`fol.hpp`)

A shallow embedding of `fol.hpp`: the term and formula class hierarchies with
their `equalTo`, `hashCode` and `print*` methods, and the two interning
databases `TermDatabase` and `FormulaDatabase`.

Modelling conventions.
* `shared_ptr<const BaseTerm>` children are embedded as the trees they point to;
  a `vector<Term>` is a `List BaseTerm`.
* `unsigned long` is a 64-bit word: a `Nat` reduced modulo `2 ^ 64`.
  `hash<string>` is a parameter `H : String → Nat` (its value is reduced modulo
  `2 ^ 64` where it is used).
* The `for(unsigned i = 0; i < _ops.size(); i++)` loops are recursions over the
  operand list; operand vectors are taken to be shorter than `2 ^ 32` entries,
  so that the 32-bit counter `i` does not wrap.
* An `ostream &` is an element of `ostream`; the contents of all streams are
  an explicit state `Output` threaded through the printers.
* Objects created by `new` carry the serial number of their allocation, so that
  two objects can be told apart even when they are structurally equal.
* The control blocks of the `shared_ptr`s are a map `UseCount` from serial
  numbers to the number of handles; the handles in the fields of an object are
  resolved to the registered object with the same tree, since only the
  factories make handles.
-/

set_option autoImplicit false

/-- Embeds `typedef string FunctionSymbol;` -/
abbrev FunctionSymbol := String
/-- Embeds `typedef string PredicateSymbol;` -/
abbrev PredicateSymbol := String
/-- Embeds `typedef string Variable;` -/
abbrev Variable := String

/-- The 64-bit word size of `unsigned long`. -/
def WORD : Nat := 2 ^ 64

/-! ## Terms -/

/-- The classes `VariableTerm` and `FunctionTerm` deriving from `BaseTerm`,
with their private fields. -/
inductive BaseTerm where
  | VariableTerm (_v : Variable)
  | FunctionTerm (_f : FunctionSymbol) (_ops : List BaseTerm)

/-- Embeds `enum BaseTerm::Type`. -/
inductive TermType where
  | TT_VARIABLE
  | TT_FUNCTION
  deriving DecidableEq, Repr

namespace BaseTerm

/-- Embeds `getType()` of the two term classes. -/
def getType : BaseTerm → TermType
  | VariableTerm _ => .TT_VARIABLE
  | FunctionTerm _ _ => .TT_FUNCTION

mutual
/-- Embeds `VariableTerm::equalTo` and `FunctionTerm::equalTo`; the first argument is
`this`, the second is `t`. -/
def equalTo : BaseTerm → BaseTerm → Bool
  | VariableTerm _v, t =>
    -- t->getType() == TT_VARIABLE && t->getVariable() == _v
    match t with
    | VariableTerm tv => tv == _v
    | FunctionTerm _ _ => false
  | FunctionTerm _f _ops, t =>
    match t with
    | VariableTerm _ => false                       -- t->getType() != TT_FUNCTION
    | FunctionTerm tf tops =>
      if tf != _f then false                        -- t->getSymbol() != _f
      else if tops.length != _ops.length then false -- tops.size() != _ops.size()
      else equalToLoop _ops tops
/-- The loop `for(i...) if(!_ops[i]->equalTo(tops[i].get())) return false;
return true;` over the remaining operands `_ops[i..]`, `tops[i..]`. It is only
entered with vectors of equal size. -/
def equalToLoop : List BaseTerm → List BaseTerm → Bool
  | [], _ => true
  | o :: ops, t :: tops => if !(equalTo o t) then false else equalToLoop ops tops
  | _ :: _, [] => false
end

mutual
/-- Embeds `VariableTerm::hashCode` and `FunctionTerm::hashCode`. -/
def hashCode (H : String → Nat) : BaseTerm → Nat
  | VariableTerm _v => H _v % WORD
  | FunctionTerm _f _ops => hashCodeLoop H (H _f % WORD) _ops
/-- The loop `for(i...) h ^= _ops[i]->hashCode();` with accumulator `h`. -/
def hashCodeLoop (H : String → Nat) : Nat → List BaseTerm → Nat
  | h, [] => h
  | h, o :: ops => hashCodeLoop H (h ^^^ hashCode H o) ops
end

end BaseTerm

/-! ## Output streams -/

/-- The `ostream` objects a printer can be handed: `std::cout`, or any other
stream (a string stream, `cerr`, a file), told apart by a number. -/
inductive ostream where
  | cout
  | other (n : Nat)
  deriving DecidableEq, Repr

/-- The text written so far to every stream. -/
abbrev Output := ostream → String

/-- No stream has received any text. -/
def Output.empty : Output := fun _ => ""

/-- The effect of `ostr << s`: `s` is appended to `ostr`, every other stream is
untouched. -/
def Output.put (w : Output) (ostr : ostream) (s : String) : Output :=
  fun x => if x = ostr then w x ++ s else w x

namespace BaseTerm

mutual
/-- Embeds `VariableTerm::printTerm` and `FunctionTerm::printTerm`. -/
def printTerm : BaseTerm → ostream → Output → Output
  | VariableTerm _v, ostr, w => w.put ostr _v
  | FunctionTerm _f _ops, ostr, w => printLoop _ops.length 0 _ops ostr (w.put ostr _f)
/-- The operand loop of `FunctionTerm::printTerm` (and, verbatim, of
`Atom::printFormula`): `size` is `_ops.size()`, the second argument is the
counter `i` and the list is `_ops[i..]`. -/
def printLoop (size : Nat) : Nat → List BaseTerm → ostream → Output → Output
  | _, [], _, w => w
  | i, t :: rest, ostr, w =>
    let w1 := if i == 0 then w.put ostr "(" else w
    let w2 := printTerm t ostr w1
    let w3 := if i != size - 1 then w2.put ostr "," else w2.put ostr ")"
    printLoop size (i + 1) rest ostr w3
end

end BaseTerm

/-! ## Formulas -/

/-- The concrete formula classes deriving from `BaseFormula`, with their
fields. An `Equality` (`Disequality`) object is an `Atom` subobject with
`_p = "="` (`"~="`) and `_ops = [lop, rop]`. -/
inductive BaseFormula where
  | True_
  | False_
  | Atom (_p : PredicateSymbol) (_ops : List BaseTerm)
  | Equality (lop rop : BaseTerm)
  | Disequality (lop rop : BaseTerm)
  | Not_ (_op : BaseFormula)
  | And_ (_op1 _op2 : BaseFormula)
  | Or_ (_op1 _op2 : BaseFormula)
  | Imp (_op1 _op2 : BaseFormula)
  | Iff_ (_op1 _op2 : BaseFormula)
  | Forall (_v : Variable) (_op : BaseFormula)
  | Exists_ (_v : Variable) (_op : BaseFormula)

/-- Embeds `enum BaseFormula::Type`, in declaration order. -/
inductive FormulaType where
  | T_TRUE | T_FALSE | T_ATOM | T_NOT
  | T_AND | T_OR | T_IMP | T_IFF | T_FORALL | T_EXISTS
  deriving DecidableEq, Repr

/-- The integer value of an enumerator of `BaseFormula::Type`. -/
def FormulaType.toNat : FormulaType → Nat
  | T_TRUE => 0 | T_FALSE => 1 | T_ATOM => 2 | T_NOT => 3
  | T_AND => 4 | T_OR => 5 | T_IMP => 6 | T_IFF => 7 | T_FORALL => 8 | T_EXISTS => 9

namespace BaseFormula

open FormulaType

/-- Embeds `getType()`; `Equality` and `Disequality` inherit `Atom::getType`. -/
def getType : BaseFormula → FormulaType
  | True_ => T_TRUE
  | False_ => T_FALSE
  | Atom _ _ => T_ATOM
  | Equality _ _ => T_ATOM
  | Disequality _ _ => T_ATOM
  | Not_ _ => T_NOT
  | And_ _ _ => T_AND
  | Or_ _ _ => T_OR
  | Imp _ _ => T_IMP
  | Iff_ _ _ => T_IFF
  | Forall _ _ => T_FORALL
  | Exists_ _ _ => T_EXISTS

/-- The `Atom` subobject of a formula whose `getType()` is `T_ATOM`: the fields
`_p` and `_ops` that `Atom::getSymbol` and `Atom::getOperands` return. The
constructors `Equality(lop, rop) : Atom("=", ...)` and
`Disequality(lop, rop) : Atom("~=", ...)` push `lop` and `rop` onto `_ops`. -/
def atomFields : BaseFormula → Option (PredicateSymbol × List BaseTerm)
  | Atom _p _ops => some (_p, _ops)
  | Equality lop rop => some ("=", [lop, rop])
  | Disequality lop rop => some ("~=", [lop, rop])
  | _ => none

/-- Embeds `Atom::equalTo` for an atom with fields `_p`, `_ops` (also run by
`Equality` and `Disequality` objects, which do not override it). -/
def atomEqualTo (_p : PredicateSymbol) (_ops : List BaseTerm) (f : BaseFormula) : Bool :=
  match atomFields f with
  | none => false                                   -- f->getType() != T_ATOM
  | some (fp, fops) =>
    if fp != _p then false                          -- f->getSymbol() != _p
    else if fops.length != _ops.length then false   -- fops.size() != _ops.size()
    else BaseTerm.equalToLoop _ops fops

/-- The `equalTo` methods of the formula classes; the first argument is `this`,
the second is `f`. -/
def equalTo : BaseFormula → BaseFormula → Bool
  | True_, f => f.getType == T_TRUE
  | False_, f => f.getType == T_FALSE
  | Atom _p _ops, f => atomEqualTo _p _ops f
  | Equality lop rop, f => atomEqualTo "=" [lop, rop] f
  | Disequality lop rop, f => atomEqualTo "~=" [lop, rop] f
  -- UnaryConnective::equalTo
  | Not_ _op, Not_ fop => equalTo _op fop
  -- BinaryConnective::equalTo
  | And_ _op1 _op2, And_ fop1 fop2 => equalTo _op1 fop1 && equalTo _op2 fop2
  | Or_ _op1 _op2, Or_ fop1 fop2 => equalTo _op1 fop1 && equalTo _op2 fop2
  | Imp _op1 _op2, Imp fop1 fop2 => equalTo _op1 fop1 && equalTo _op2 fop2
  | Iff_ _op1 _op2, Iff_ fop1 fop2 => equalTo _op1 fop1 && equalTo _op2 fop2
  -- Quantifier::equalTo
  | Forall _v _op, Forall fv fop => fv == _v && equalTo _op fop
  | Exists_ _v _op, Exists_ fv fop => fv == _v && equalTo _op fop
  -- f->getType() == this->getType() fails
  | _, _ => false

/-- The salt `0x0101010101010101 << ((unsigned long)this->getType() - 3)` of the
connective and quantifier hashes, as an `unsigned long`. -/
def salt (t : FormulaType) : Nat :=
  (0x0101010101010101 <<< (t.toNat - 3)) % WORD

/-- The `hashCode` methods of the formula classes. -/
def hashCode (H : String → Nat) : BaseFormula → Nat
  | True_ => H "true" % WORD
  | False_ => H "false" % WORD
  -- Atom::hashCode
  | Atom _p _ops => BaseTerm.hashCodeLoop H (H _p % WORD) _ops
  | Equality lop rop => BaseTerm.hashCodeLoop H (H "=" % WORD) [lop, rop]
  | Disequality lop rop => BaseTerm.hashCodeLoop H (H "~=" % WORD) [lop, rop]
  -- UnaryConnective::hashCode
  | Not_ _op => salt T_NOT ^^^ hashCode H _op
  -- BinaryConnective::hashCode
  | And_ _op1 _op2 => salt T_AND ^^^ hashCode H _op1 ^^^ hashCode H _op2
  | Or_ _op1 _op2 => salt T_OR ^^^ hashCode H _op1 ^^^ hashCode H _op2
  | Imp _op1 _op2 => salt T_IMP ^^^ hashCode H _op1 ^^^ hashCode H _op2
  | Iff_ _op1 _op2 => salt T_IFF ^^^ hashCode H _op1 ^^^ hashCode H _op2
  -- Quantifier::hashCode
  | Forall _v _op => salt T_FORALL ^^^ hashCode H _op ^^^ (H _v % WORD)
  | Exists_ _v _op => salt T_EXISTS ^^^ hashCode H _op ^^^ (H _v % WORD)

end BaseFormula

namespace BaseFormula

open FormulaType

/-- The `printFormula` methods of the formula classes, writing to the stream
`ostr` handed in, and, in `Forall` and `Exists`, to `cout`. -/
def printFormula : BaseFormula → ostream → Output → Output
  | True_, ostr, w => w.put ostr "true"
  | False_, ostr, w => w.put ostr "false"
  -- Atom::printFormula
  | Atom _p _ops, ostr, w =>
    BaseTerm.printLoop _ops.length 0 _ops ostr (w.put ostr _p)
  -- Equality::printFormula
  | Equality lop rop, ostr, w =>
    let w := BaseTerm.printTerm lop ostr w
    let w := w.put ostr " = "
    BaseTerm.printTerm rop ostr w
  -- Disequality::printFormula
  | Disequality lop rop, ostr, w =>
    let w := BaseTerm.printTerm lop ostr w
    let w := w.put ostr " ~= "
    BaseTerm.printTerm rop ostr w
  -- Not::printFormula
  | Not_ _op, ostr, w =>
    let w := w.put ostr "~"
    let op_type := _op.getType
    let paren := op_type == T_AND || op_type == T_OR ||
      op_type == T_IMP || op_type == T_IFF ||
      op_type == T_FORALL || op_type == T_EXISTS
    let w := if paren then w.put ostr "(" else w
    let w := printFormula _op ostr w
    if paren then w.put ostr ")" else w
  -- And::printFormula
  | And_ _op1 _op2, ostr, w =>
    let op1_type := _op1.getType
    let op2_type := _op2.getType
    let paren1 := op1_type == T_OR || op1_type == T_IMP ||
      op1_type == T_IFF ||
      op1_type == T_FORALL || op1_type == T_EXISTS
    let paren2 := op2_type == T_OR || op2_type == T_IMP ||
      op2_type == T_IFF || op2_type == T_AND ||
      op2_type == T_FORALL || op2_type == T_EXISTS
    let w := if paren1 then w.put ostr "(" else w
    let w := printFormula _op1 ostr w
    let w := if paren1 then w.put ostr ")" else w
    let w := w.put ostr " & "
    let w := if paren2 then w.put ostr "(" else w
    let w := printFormula _op2 ostr w
    if paren2 then w.put ostr ")" else w
  -- Or::printFormula
  | Or_ _op1 _op2, ostr, w =>
    let op1_type := _op1.getType
    let op2_type := _op2.getType
    let paren1 := op1_type == T_IMP || op1_type == T_IFF ||
      op1_type == T_FORALL || op1_type == T_EXISTS
    let paren2 := op2_type == T_IMP ||
      op2_type == T_IFF || op2_type == T_OR ||
      op2_type == T_FORALL || op2_type == T_EXISTS
    let w := if paren1 then w.put ostr "(" else w
    let w := printFormula _op1 ostr w
    let w := if paren1 then w.put ostr ")" else w
    let w := w.put ostr " | "
    let w := if paren2 then w.put ostr "(" else w
    let w := printFormula _op2 ostr w
    if paren2 then w.put ostr ")" else w
  -- Imp::printFormula
  | Imp _op1 _op2, ostr, w =>
    let op1_type := _op1.getType
    let op2_type := _op2.getType
    let paren1 := op1_type == T_IMP || op1_type == T_IFF ||
      op1_type == T_FORALL || op1_type == T_EXISTS
    let paren2 := op2_type == T_IFF ||
      op2_type == T_FORALL || op2_type == T_EXISTS
    let w := if paren1 then w.put ostr "(" else w
    let w := printFormula _op1 ostr w
    let w := if paren1 then w.put ostr ")" else w
    let w := w.put ostr " => "
    let w := if paren2 then w.put ostr "(" else w
    let w := printFormula _op2 ostr w
    if paren2 then w.put ostr ")" else w
  -- Iff::printFormula
  | Iff_ _op1 _op2, ostr, w =>
    let op1_type := _op1.getType
    let op2_type := _op2.getType
    let paren1 := op1_type == T_IFF ||
      op1_type == T_FORALL || op1_type == T_EXISTS
    let paren2 := op2_type == T_FORALL || op2_type == T_EXISTS
    let w := if paren1 then w.put ostr "(" else w
    let w := printFormula _op1 ostr w
    let w := if paren1 then w.put ostr ")" else w
    let w := w.put ostr " <=> "
    let w := if paren2 then w.put ostr "(" else w
    let w := printFormula _op2 ostr w
    if paren2 then w.put ostr ")" else w
  -- Forall::printFormula: `cout << "!" << _v << " . ";`
  | Forall _v _op, ostr, w =>
    let w := ((w.put .cout "!").put .cout _v).put .cout " . "
    printFormula _op ostr w
  -- Exists::printFormula: `cout << "?" << _v << " . ";`
  | Exists_ _v _op, ostr, w =>
    let w := ((w.put .cout "?").put .cout _v).put .cout " . "
    printFormula _op ostr w

end BaseFormula

namespace BaseFormula

/-- The formula with every `Equality` and `Disequality` node read as the `Atom`
subobject it stores (`_p = "="` or `"~="`, `_ops = [lop, rop]`): the part of an
object that `getType`, `equalTo` and `hashCode` can see. -/
def asAtom : BaseFormula → BaseFormula
  | True_ => True_
  | False_ => False_
  | Atom _p _ops => Atom _p _ops
  | Equality lop rop => Atom "=" [lop, rop]
  | Disequality lop rop => Atom "~=" [lop, rop]
  | Not_ _op => Not_ (asAtom _op)
  | And_ _op1 _op2 => And_ (asAtom _op1) (asAtom _op2)
  | Or_ _op1 _op2 => Or_ (asAtom _op1) (asAtom _op2)
  | Imp _op1 _op2 => Imp (asAtom _op1) (asAtom _op2)
  | Iff_ _op1 _op2 => Iff_ (asAtom _op1) (asAtom _op2)
  | Forall _v _op => Forall _v (asAtom _op)
  | Exists_ _v _op => Exists_ _v (asAtom _op)

end BaseFormula

/-! ## The interning databases -/

/-- An object created by a `new` expression: `serial` is the number of the
allocation that created it, `node` is the object itself. A raw pointer and a
`shared_ptr` handle to the object are both this pair: two handles are to the
same instance exactly when the pairs are equal. -/
structure Obj (α : Type) where
  serial : Nat
  node : α

/-- Embeds `typedef shared_ptr<const BaseTerm> Term;` -/
abbrev Term := Obj BaseTerm
/-- Embeds `typedef shared_ptr<const BaseFormula> Formula;` -/
abbrev Formula := Obj BaseFormula

/-- The free store: how many `new` expressions have been evaluated. -/
structure Heap where
  allocated : Nat

/-- The expression `new T(...)`: the object gets the next serial number. -/
def Heap.new {α : Type} (hp : Heap) (node : α) : Obj α × Heap :=
  (⟨hp.allocated, node⟩, ⟨hp.allocated + 1⟩)

/-- The `std::hash` and `std::equal_to` specialisations an `unordered_set` of
pointers is instantiated with. -/
structure KeyOps (α : Type) where
  hash : α → Nat
  equal_to : α → α → Bool

/-- Embeds `unordered_set<const T *>`: the stored pointers, in the container's own
order. -/
abbrev unordered_set (α : Type) := List (Obj α)

namespace unordered_set

variable {α : Type}

/-- The test a lookup for the key `k` applies to a stored element `e`: `e` has
the hash code of `k` and `equal_to(k, e)` holds. -/
def hit (K : KeyOps α) (k e : Obj α) : Bool :=
  K.hash e.node == K.hash k.node && K.equal_to k.node e.node

/-- Embeds `find(k)`: the stored element equivalent to `k`, or `end()`. -/
def find (K : KeyOps α) (s : unordered_set α) (k : Obj α) : Option (Obj α) :=
  List.find? (hit K k) s

/-- Embeds `insert(k)`: `k` is stored unless an equivalent element already is. -/
def insert (K : KeyOps α) (s : unordered_set α) (k : Obj α) : unordered_set α :=
  if (find K s k).isSome then s else k :: s

/-- Embeds `erase(k)`: the stored element equivalent to `k`, if any, is removed. -/
def erase (K : KeyOps α) (s : unordered_set α) (k : Obj α) : unordered_set α :=
  List.eraseP (hit K k) s

end unordered_set

/-- Embeds `std::hash<const BaseTerm*>` and `std::equal_to<const BaseTerm*>`. -/
def termKeys (H : String → Nat) : KeyOps BaseTerm :=
  ⟨BaseTerm.hashCode H, BaseTerm.equalTo⟩

/-- Embeds `std::hash<const BaseFormula*>` and `std::equal_to<const BaseFormula*>`. -/
def formulaKeys (H : String → Nat) : KeyOps BaseFormula :=
  ⟨BaseFormula.hashCode H, BaseFormula.equalTo⟩

/-- The control blocks of the shared pointers: for every object, by its serial
number, how many handles own it. -/
abbrev UseCount := Nat → Nat

/-- One handle to the object with the serial number `s` goes away. -/
def UseCount.drop (uc : UseCount) (s : Nat) : UseCount :=
  fun x => if x = s then uc x - 1 else uc x

/-- Embeds `class TermDatabase`. -/
structure TermDatabase where
  _terms : unordered_set BaseTerm

namespace TermDatabase

/-- The database `getTermDatabase()` creates on first use. -/
def empty : TermDatabase := ⟨[]⟩

/-- Embeds `TermDatabase::addTerm`: the handle returned and the database afterwards. -/
def addTerm (H : String → Nat) (db : TermDatabase) (t : Obj BaseTerm) :
    Term × TermDatabase :=
  match unordered_set.find (termKeys H) db._terms t with
  | some it => (it, db)     -- delete t; return (*it)->shared_from_this();
  | none => (t, ⟨unordered_set.insert (termKeys H) db._terms t⟩)

/-- The object a `Term` handle with the tree `o` points to. Only the factories
make handles, and they hand out registered objects, which stay registered as
long as a handle is alive: the pointee is the registered object with that
tree. -/
def pointee (H : String → Nat) (db : TermDatabase) (o : BaseTerm) : Option (Obj BaseTerm) :=
  unordered_set.find (termKeys H) db._terms ⟨0, o⟩

/-- The destructor of one `Term` handle with the tree `o`: the use count of the
pointee drops by one and, when it reaches zero, the `Deleter` of the handle is
called on the pointee (given here by its serial number). -/
def releaseWith (H : String → Nat) (o : BaseTerm)
    (deleter : Nat → TermDatabase → UseCount → TermDatabase × UseCount)
    (db : TermDatabase) (uc : UseCount) : TermDatabase × UseCount :=
  match db.pointee H o with
  | none => (db, uc)
  | some p =>
    let uc := uc.drop p.serial
    if uc p.serial = 0 then deleter p.serial db uc else (db, uc)

mutual
/-- Embeds `TermDatabase::removeTerm(t)` for the object `t` with the serial
number `s` and the given tree: `_terms.erase(t); delete t;`. The `delete`
destroys the vector `_ops` of a `FunctionTerm`, which releases its handles. -/
def removeNode (H : String → Nat) :
    Nat → BaseTerm → TermDatabase → UseCount → TermDatabase × UseCount
  | s, .VariableTerm _v, db, uc =>
    (⟨unordered_set.erase (termKeys H) db._terms ⟨s, .VariableTerm _v⟩⟩, uc)
  | s, .FunctionTerm _f _ops, db, uc =>
    releaseAll H _ops
      ⟨unordered_set.erase (termKeys H) db._terms ⟨s, .FunctionTerm _f _ops⟩⟩ uc
/-- The destructor of a `vector<Term>`: its handles are released one after the
other, from the first to the last; the deleter of a handle that was the last
one is `Deleter::operator()`, which calls `removeTerm` on the pointee, an
object whose tree is `o`. -/
def releaseAll (H : String → Nat) :
    List BaseTerm → TermDatabase → UseCount → TermDatabase × UseCount
  | [], db, uc => (db, uc)
  | o :: rest, db, uc =>
    let r := releaseWith H o (fun s db uc => removeNode H s o db uc) db uc
    releaseAll H rest r.1 r.2
end

/-- Embeds `TermDatabase::removeTerm`, called by `Deleter::operator()` when the
last handle to `t` goes away: the registry and the use counts afterwards. -/
def removeTerm (H : String → Nat) (db : TermDatabase) (uc : UseCount) (t : Obj BaseTerm) :
    TermDatabase × UseCount :=
  removeNode H t.serial t.node db uc

/-- The destructor (or `reset()`) of a handle `h` held by the client: the use
count of the object drops by one and at zero the `Deleter` runs
`removeTerm`. -/
def release (H : String → Nat) (db : TermDatabase) (uc : UseCount) (h : Term) :
    TermDatabase × UseCount :=
  let uc := uc.drop h.serial
  if uc h.serial = 0 then db.removeTerm H uc h else (db, uc)

/-- Embeds `TermDatabase::makeVariableTerm`. -/
def makeVariableTerm (H : String → Nat) (db : TermDatabase) (hp : Heap) (v : Variable) :
    Term × TermDatabase × Heap :=
  let (vt, hp) := hp.new (BaseTerm.VariableTerm v)
  let (r, db) := db.addTerm H vt
  (r, db, hp)

/-- Embeds `TermDatabase::makeFunctionTerm` (both overloads). -/
def makeFunctionTerm (H : String → Nat) (db : TermDatabase) (hp : Heap)
    (f : FunctionSymbol) (ops : List Term) : Term × TermDatabase × Heap :=
  let (ft, hp) := hp.new (BaseTerm.FunctionTerm f (ops.map Obj.node))
  let (r, db) := db.addTerm H ft
  (r, db, hp)

/-- No two entries of the registry are `equalTo` each other. -/
def Canonical (db : TermDatabase) : Prop :=
  db._terms.Pairwise (fun a b => BaseTerm.equalTo a.node b.node = false)

end TermDatabase

/-- Embeds `class FormulaDatabase`. -/
structure FormulaDatabase where
  _formulas : unordered_set BaseFormula

/-- The two registries and the control blocks of all handles. -/
structure Pools where
  formulas : FormulaDatabase
  terms : TermDatabase
  use_count : UseCount

namespace FormulaDatabase

/-- The database `getFormulaDatabase()` creates on first use. -/
def empty : FormulaDatabase := ⟨[]⟩

/-- Embeds `FormulaDatabase::addFormula`: the handle returned and the database
afterwards. -/
def addFormula (H : String → Nat) (db : FormulaDatabase) (f : Obj BaseFormula) :
    Formula × FormulaDatabase :=
  match unordered_set.find (formulaKeys H) db._formulas f with
  | some it => (it, db)     -- delete f; return (*it)->shared_from_this();
  | none => (f, ⟨unordered_set.insert (formulaKeys H) db._formulas f⟩)

/-- The object a `Formula` handle with the tree `o` points to: the registered
object that is `equalTo` it. -/
def pointee (H : String → Nat) (db : FormulaDatabase) (o : BaseFormula) :
    Option (Obj BaseFormula) :=
  unordered_set.find (formulaKeys H) db._formulas ⟨0, o⟩

/-- The destructor of one `Formula` handle with the tree `o`: the use count of
the pointee drops by one and, when it reaches zero, the `Deleter` of the handle
is called on the pointee (given here by its serial number). -/
def releaseWith (H : String → Nat) (o : BaseFormula) (deleter : Nat → Pools → Pools)
    (st : Pools) : Pools :=
  match st.formulas.pointee H o with
  | none => st
  | some p =>
    let st : Pools := { st with use_count := st.use_count.drop p.serial }
    if st.use_count p.serial = 0 then deleter p.serial st else st

/-- The destructor of the vector `_ops` of an `Atom`: its `Term` handles are
released, which can run `TermDatabase::removeTerm`. -/
def releaseTerms (H : String → Nat) (ops : List BaseTerm) (st : Pools) : Pools :=
  let r := TermDatabase.releaseAll H ops st.terms st.use_count
  { st with terms := r.1, use_count := r.2 }

/-- The statement `_formulas.erase(f);` for the object `f` with the serial
number `s` and the given tree. -/
def eraseNode (H : String → Nat) (s : Nat) (node : BaseFormula) (st : Pools) : Pools :=
  { st with
    formulas := ⟨unordered_set.erase (formulaKeys H) st.formulas._formulas ⟨s, node⟩⟩ }

/-- Embeds `FormulaDatabase::removeFormula(f)` for the object `f` with the
serial number `s` and the given tree: `_formulas.erase(f); delete f;`. The
`delete` destroys the fields of the object in the reverse order of their
declaration, which releases the handles `_ops`, `_op`, `_op2` and `_op1`. -/
def removeNode (H : String → Nat) : Nat → BaseFormula → Pools → Pools
  | s, .True_, st => eraseNode H s .True_ st
  | s, .False_, st => eraseNode H s .False_ st
  | s, .Atom _p _ops, st => releaseTerms H _ops (eraseNode H s (.Atom _p _ops) st)
  | s, .Equality lop rop, st =>
    releaseTerms H [lop, rop] (eraseNode H s (.Equality lop rop) st)
  | s, .Disequality lop rop, st =>
    releaseTerms H [lop, rop] (eraseNode H s (.Disequality lop rop) st)
  | s, .Not_ _op, st =>
    releaseWith H _op (fun s st => removeNode H s _op st) (eraseNode H s (.Not_ _op) st)
  | s, .And_ _op1 _op2, st =>
    let st := eraseNode H s (.And_ _op1 _op2) st
    let st := releaseWith H _op2 (fun s st => removeNode H s _op2 st) st
    releaseWith H _op1 (fun s st => removeNode H s _op1 st) st
  | s, .Or_ _op1 _op2, st =>
    let st := eraseNode H s (.Or_ _op1 _op2) st
    let st := releaseWith H _op2 (fun s st => removeNode H s _op2 st) st
    releaseWith H _op1 (fun s st => removeNode H s _op1 st) st
  | s, .Imp _op1 _op2, st =>
    let st := eraseNode H s (.Imp _op1 _op2) st
    let st := releaseWith H _op2 (fun s st => removeNode H s _op2 st) st
    releaseWith H _op1 (fun s st => removeNode H s _op1 st) st
  | s, .Iff_ _op1 _op2, st =>
    let st := eraseNode H s (.Iff_ _op1 _op2) st
    let st := releaseWith H _op2 (fun s st => removeNode H s _op2 st) st
    releaseWith H _op1 (fun s st => removeNode H s _op1 st) st
  | s, .Forall _v _op, st =>
    releaseWith H _op (fun s st => removeNode H s _op st) (eraseNode H s (.Forall _v _op) st)
  | s, .Exists_ _v _op, st =>
    releaseWith H _op (fun s st => removeNode H s _op st)
      (eraseNode H s (.Exists_ _v _op) st)

/-- Embeds `FormulaDatabase::removeFormula`, called by `Deleter::operator()`
when the last handle to `f` goes away: the two registries and the use counts
afterwards. -/
def removeFormula (H : String → Nat) (db : FormulaDatabase) (tdb : TermDatabase)
    (uc : UseCount) (f : Obj BaseFormula) : Pools :=
  removeNode H f.serial f.node ⟨db, tdb, uc⟩

/-- The destructor (or `reset()`) of a handle `h` held by the client: the use
count of the object drops by one and at zero the `Deleter` runs
`removeFormula`. -/
def release (H : String → Nat) (db : FormulaDatabase) (tdb : TermDatabase)
    (uc : UseCount) (h : Formula) : Pools :=
  let uc := uc.drop h.serial
  if uc h.serial = 0 then db.removeFormula H tdb uc h else ⟨db, tdb, uc⟩

/-- The common shape of the `make*` members: `X * a = new X(...); return
addFormula(a);`. -/
def make (H : String → Nat) (db : FormulaDatabase) (hp : Heap) (node : BaseFormula) :
    Formula × FormulaDatabase × Heap :=
  let (a, hp) := hp.new node
  let (r, db) := db.addFormula H a
  (r, db, hp)

/-- Embeds `FormulaDatabase::makeTrue`. -/
def makeTrue (H : String → Nat) (db : FormulaDatabase) (hp : Heap) :=
  make H db hp BaseFormula.True_

/-- Embeds `FormulaDatabase::makeFalse`. -/
def makeFalse (H : String → Nat) (db : FormulaDatabase) (hp : Heap) :=
  make H db hp BaseFormula.False_

/-- Embeds `FormulaDatabase::makeAtom` (both overloads). -/
def makeAtom (H : String → Nat) (db : FormulaDatabase) (hp : Heap)
    (p : PredicateSymbol) (ops : List Term) :=
  make H db hp (BaseFormula.Atom p (ops.map Obj.node))

/-- Embeds `FormulaDatabase::makeEquality`. -/
def makeEquality (H : String → Nat) (db : FormulaDatabase) (hp : Heap) (l r : Term) :=
  make H db hp (BaseFormula.Equality l.node r.node)

/-- Embeds `FormulaDatabase::makeDisequality`. -/
def makeDisequality (H : String → Nat) (db : FormulaDatabase) (hp : Heap) (l r : Term) :=
  make H db hp (BaseFormula.Disequality l.node r.node)

/-- Embeds `FormulaDatabase::makeNot`. -/
def makeNot (H : String → Nat) (db : FormulaDatabase) (hp : Heap) (f : Formula) :=
  make H db hp (BaseFormula.Not_ f.node)

/-- Embeds `FormulaDatabase::makeAnd`. -/
def makeAnd (H : String → Nat) (db : FormulaDatabase) (hp : Heap) (l r : Formula) :=
  make H db hp (BaseFormula.And_ l.node r.node)

/-- Embeds `FormulaDatabase::makeOr`. -/
def makeOr (H : String → Nat) (db : FormulaDatabase) (hp : Heap) (l r : Formula) :=
  make H db hp (BaseFormula.Or_ l.node r.node)

/-- Embeds `FormulaDatabase::makeImp`. -/
def makeImp (H : String → Nat) (db : FormulaDatabase) (hp : Heap) (l r : Formula) :=
  make H db hp (BaseFormula.Imp l.node r.node)

/-- Embeds `FormulaDatabase::makeIff`. -/
def makeIff (H : String → Nat) (db : FormulaDatabase) (hp : Heap) (l r : Formula) :=
  make H db hp (BaseFormula.Iff_ l.node r.node)

/-- Embeds `FormulaDatabase::makeForall`. -/
def makeForall (H : String → Nat) (db : FormulaDatabase) (hp : Heap)
    (v : Variable) (f : Formula) :=
  make H db hp (BaseFormula.Forall v f.node)

/-- Embeds `FormulaDatabase::makeExists`. -/
def makeExists (H : String → Nat) (db : FormulaDatabase) (hp : Heap)
    (v : Variable) (f : Formula) :=
  make H db hp (BaseFormula.Exists_ v f.node)

/-- No two entries of the registry are `equalTo` each other. -/
def Canonical (db : FormulaDatabase) : Prop :=
  db._formulas.Pairwise (fun a b => BaseFormula.equalTo a.node b.node = false)

end FormulaDatabase

/-- What `unordered_set` requires of its hash and key equality: `equal_to` is
an equivalence relation and equivalent keys have the same hash code. -/
structure KeyOps.Lawful {α : Type} (K : KeyOps α) : Prop where
  refl : ∀ a, K.equal_to a a = true
  symm : ∀ a b, K.equal_to a b = true → K.equal_to b a = true
  trans : ∀ a b c, K.equal_to a b = true → K.equal_to b c = true → K.equal_to a c = true
  hash_eq : ∀ a b, K.equal_to a b = true → K.hash a = K.hash b

/-- No two stored elements are equivalent keys. -/
def unordered_set.Canonical {α : Type} (K : KeyOps α) (s : unordered_set α) : Prop :=
  s.Pairwise (fun a b => K.equal_to a.node b.node = false)

/-- What a destruction step `op` does to the term registry and the use counts:
it only takes entries away, a use count that is zero stays zero, and in a
canonical registry an entry is taken away only if its use count is zero
afterwards or it is one of the entries `ex` that the step erases outright. -/
def TermDatabase.Releases (ex : Obj BaseTerm → Bool)
    (op : TermDatabase → UseCount → TermDatabase × UseCount) : Prop :=
  ∀ (db : TermDatabase) (uc : UseCount),
    (op db uc).1._terms.Sublist db._terms
    ∧ (∀ x, uc x = 0 → (op db uc).2 x = 0)
    ∧ (db.Canonical → ∀ y ∈ db._terms,
        y ∈ (op db uc).1._terms ∨ (op db uc).2 y.serial = 0 ∨ ex y = true)

/-- What a destruction step `op` does to the two registries and the use counts:
it only takes entries away, a use count that is zero stays zero, and in
canonical registries an entry is taken away only if its use count is zero
afterwards or it is one of the formula entries `ex` that the step erases
outright. -/
def FormulaDatabase.Releases (ex : Obj BaseFormula → Bool) (op : Pools → Pools) : Prop :=
  ∀ st : Pools,
    (op st).formulas._formulas.Sublist st.formulas._formulas
    ∧ (op st).terms._terms.Sublist st.terms._terms
    ∧ (∀ x, st.use_count x = 0 → (op st).use_count x = 0)
    ∧ (st.formulas.Canonical → ∀ y ∈ st.formulas._formulas,
        y ∈ (op st).formulas._formulas ∨ (op st).use_count y.serial = 0 ∨ ex y = true)
    ∧ (st.terms.Canonical → ∀ y ∈ st.terms._terms,
        y ∈ (op st).terms._terms ∨ (op st).use_count y.serial = 0)

mutual
/-- Whether the tree `y` is `equalTo` the given term or one of its subterms:
the trees of the objects that the destruction of an object with the given term
can reach. -/
def BaseTerm.subtermOf (y : BaseTerm) : BaseTerm → Bool
  | .VariableTerm v => BaseTerm.equalTo (.VariableTerm v) y
  | .FunctionTerm f ops =>
    BaseTerm.equalTo (.FunctionTerm f ops) y || BaseTerm.subtermOfAny y ops
/-- Whether the tree `y` is `equalTo` a subterm of one of the given terms. -/
def BaseTerm.subtermOfAny (y : BaseTerm) : List BaseTerm → Bool
  | [] => false
  | o :: rest => BaseTerm.subtermOf y o || BaseTerm.subtermOfAny y rest
end

/-- A destruction step `op` spares every entry of the term registry whose tree
is not one of `touch`. -/
def TermDatabase.Spares (touch : BaseTerm → Bool)
    (op : TermDatabase → UseCount → TermDatabase × UseCount) : Prop :=
  ∀ (db : TermDatabase) (uc : UseCount), ∀ y ∈ db._terms,
    touch y.node = false → y ∈ (op db uc).1._terms

/-- A destruction step `op` spares every entry of the formula registry whose
tree is not one of `touch` and every entry of the term registry whose tree is
not one of `touchTerm`. -/
def FormulaDatabase.Spares (touch : BaseFormula → Bool) (touchTerm : BaseTerm → Bool)
    (op : Pools → Pools) : Prop :=
  ∀ st : Pools,
    (∀ y ∈ st.formulas._formulas, touch y.node = false → y ∈ (op st).formulas._formulas)
    ∧ (∀ y ∈ st.terms._terms, touchTerm y.node = false → y ∈ (op st).terms._terms)

/-! ## Accessors that only some classes implement -/

/-- The two ways an evaluation can leave the defined behaviour of the program:
the base-class accessor body `throw "Not implemented";`, and an `operator[]`
past the end of a vector. -/
inductive Fault where
  | NotImplemented
  | OutOfRange
  deriving DecidableEq, Repr

namespace BaseTerm

/-- Embeds `BaseTerm::getVariable`, overridden by `VariableTerm`. -/
def getVariable : BaseTerm → Except Fault Variable
  | VariableTerm _v => .ok _v
  | FunctionTerm _ _ => .error .NotImplemented

/-- Embeds `BaseTerm::getSymbol`, overridden by `FunctionTerm`. -/
def getSymbol : BaseTerm → Except Fault FunctionSymbol
  | FunctionTerm _f _ => .ok _f
  | VariableTerm _ => .error .NotImplemented

/-- Embeds `BaseTerm::getOperands`, overridden by `FunctionTerm`. -/
def getOperands : BaseTerm → Except Fault (List BaseTerm)
  | FunctionTerm _ _ops => .ok _ops
  | VariableTerm _ => .error .NotImplemented

end BaseTerm

namespace BaseFormula

/-- Embeds `BaseFormula::getSymbol`, overridden by `Atom` (and inherited by
`Equality` and `Disequality`). -/
def getSymbol : BaseFormula → Except Fault PredicateSymbol
  | Atom _p _ => .ok _p
  | Equality _ _ => .ok "="
  | Disequality _ _ => .ok "~="
  | _ => .error .NotImplemented

/-- Embeds `BaseFormula::getOperands`, overridden by `Atom` (and inherited by
`Equality` and `Disequality`). -/
def getOperands : BaseFormula → Except Fault (List BaseTerm)
  | Atom _ _ops => .ok _ops
  | Equality lop rop => .ok [lop, rop]
  | Disequality lop rop => .ok [lop, rop]
  | _ => .error .NotImplemented

/-- Embeds `BaseFormula::getLeftOperand`, overridden by `Equality` and
`Disequality` to return `_ops[0]`. -/
def getLeftOperand : BaseFormula → Except Fault BaseTerm
  | Equality lop _ => .ok lop
  | Disequality lop _ => .ok lop
  | _ => .error .NotImplemented

/-- Embeds `BaseFormula::getRightOperand`, overridden by `Equality` and
`Disequality` to return `_ops[1]`. -/
def getRightOperand : BaseFormula → Except Fault BaseTerm
  | Equality _ rop => .ok rop
  | Disequality _ rop => .ok rop
  | _ => .error .NotImplemented

/-- Embeds `BaseFormula::getOperand`, overridden by `UnaryConnective` and by
`Quantifier`. -/
def getOperand : BaseFormula → Except Fault BaseFormula
  | Not_ _op => .ok _op
  | Forall _ _op => .ok _op
  | Exists_ _ _op => .ok _op
  | _ => .error .NotImplemented

/-- Embeds `BaseFormula::getOperand1`, overridden by `BinaryConnective`. -/
def getOperand1 : BaseFormula → Except Fault BaseFormula
  | And_ _op1 _ => .ok _op1
  | Or_ _op1 _ => .ok _op1
  | Imp _op1 _ => .ok _op1
  | Iff_ _op1 _ => .ok _op1
  | _ => .error .NotImplemented

/-- Embeds `BaseFormula::getOperand2`, overridden by `BinaryConnective`. -/
def getOperand2 : BaseFormula → Except Fault BaseFormula
  | And_ _ _op2 => .ok _op2
  | Or_ _ _op2 => .ok _op2
  | Imp _ _op2 => .ok _op2
  | Iff_ _ _op2 => .ok _op2
  | _ => .error .NotImplemented

/-- Embeds `BaseFormula::getVariable`, overridden by `Quantifier`. -/
def getVariable : BaseFormula → Except Fault Variable
  | Forall _v _ => .ok _v
  | Exists_ _v _ => .ok _v
  | _ => .error .NotImplemented

end BaseFormula

/-! ## The methods with their accessor calls and index operations spelled out -/

namespace BaseTerm

mutual
/-- Embeds `VariableTerm::equalTo` and `FunctionTerm::equalTo` statement by
statement: every accessor call on `t` can throw and every `operator[]` can run
past the end. -/
def equalToChecked : BaseTerm → BaseTerm → Except Fault Bool
  | VariableTerm _v, t =>
    -- t->getType() == TT_VARIABLE && t->getVariable() == _v
    if t.getType == .TT_VARIABLE then do
      let tv ← t.getVariable
      pure (tv == _v)
    else pure false
  | FunctionTerm _f _ops, t =>
    if t.getType != .TT_FUNCTION then pure false
    else do
      let tf ← t.getSymbol
      if tf != _f then pure false
      else do
        let tops ← t.getOperands
        if tops.length != _ops.length then pure false
        else equalToLoopChecked _ops tops 0
termination_by a => (sizeOf a, 0)
decreasing_by
  all_goals simp_wf
  all_goals apply Prod.Lex.left
  all_goals omega
/-- The loop `for(unsigned i = 0; i < _ops.size(); i++)
if(!_ops[i]->equalTo(tops[i].get())) return false; return true;` from the
index `i` on. -/
def equalToLoopChecked (_ops tops : List BaseTerm) (i : Nat) : Except Fault Bool :=
  if i < _ops.length then
    match ho : _ops[i]?, tops[i]? with
    | some o, some t => do
      let r ← equalToChecked o t
      if !r then pure false else equalToLoopChecked _ops tops (i + 1)
    | _, _ => throw .OutOfRange
  else pure true
termination_by (sizeOf _ops, _ops.length - i)
decreasing_by
  · apply Prod.Lex.left
    exact List.sizeOf_lt_of_mem (List.getElem?_mem ho)
  · apply Prod.Lex.right
    omega
end

mutual
/-- Embeds `VariableTerm::hashCode` and `FunctionTerm::hashCode` with the index
operations of the loop spelled out. -/
def hashCodeChecked (H : String → Nat) : BaseTerm → Except Fault Nat
  | VariableTerm _v => pure (H _v % WORD)
  | FunctionTerm _f _ops => hashCodeLoopChecked H _ops 0 (H _f % WORD)
termination_by a => (sizeOf a, 0)
decreasing_by
  all_goals simp_wf
  all_goals apply Prod.Lex.left
  all_goals omega
/-- The loop `for(unsigned i = 0; i < _ops.size(); i++) h ^= _ops[i]->hashCode();`
from the index `i` on, with accumulator `h`. -/
def hashCodeLoopChecked (H : String → Nat) (_ops : List BaseTerm) (i : Nat) (h : Nat) :
    Except Fault Nat :=
  if i < _ops.length then
    match ho : _ops[i]? with
    | some o => do
      let c ← hashCodeChecked H o
      hashCodeLoopChecked H _ops (i + 1) (h ^^^ c)
    | none => throw .OutOfRange
  else pure h
termination_by (sizeOf _ops, _ops.length - i)
decreasing_by
  · apply Prod.Lex.left
    exact List.sizeOf_lt_of_mem (List.getElem?_mem ho)
  · apply Prod.Lex.right
    omega
end

mutual
/-- Embeds `VariableTerm::printTerm` and `FunctionTerm::printTerm` with the
index operations of the loop spelled out. -/
def printTermChecked : BaseTerm → ostream → Output → Except Fault Output
  | VariableTerm _v, ostr, w => pure (w.put ostr _v)
  | FunctionTerm _f _ops, ostr, w => printLoopChecked _ops 0 ostr (w.put ostr _f)
termination_by a => (sizeOf a, 0)
decreasing_by
  all_goals simp_wf
  all_goals apply Prod.Lex.left
  all_goals omega
/-- The operand loop of `FunctionTerm::printTerm` and of `Atom::printFormula`
from the index `i` on. -/
def printLoopChecked (_ops : List BaseTerm) (i : Nat) (ostr : ostream) (w : Output) :
    Except Fault Output :=
  if i < _ops.length then
    match ho : _ops[i]? with
    | some t => do
      let w1 := if i == 0 then w.put ostr "(" else w
      let w2 ← printTermChecked t ostr w1
      let w3 := if i != _ops.length - 1 then w2.put ostr "," else w2.put ostr ")"
      printLoopChecked _ops (i + 1) ostr w3
    | none => throw .OutOfRange
  else pure w
termination_by (sizeOf _ops, _ops.length - i)
decreasing_by
  · apply Prod.Lex.left
    exact List.sizeOf_lt_of_mem (List.getElem?_mem ho)
  · apply Prod.Lex.right
    omega
end

end BaseTerm

namespace BaseFormula

open FormulaType

/-- Embeds `Atom::equalTo` statement by statement, for an atom with the fields
`_p` and `_ops`. -/
def atomEqualToChecked (_p : PredicateSymbol) (_ops : List BaseTerm) (f : BaseFormula) :
    Except Fault Bool :=
  if f.getType != T_ATOM then pure false
  else do
    let fp ← f.getSymbol
    if fp != _p then pure false
    else do
      let fops ← f.getOperands
      if fops.length != _ops.length then pure false
      else BaseTerm.equalToLoopChecked _ops fops 0

/-- Embeds the `equalTo` methods of the formula classes statement by
statement: every accessor call on `f` can throw. -/
def equalToChecked : BaseFormula → BaseFormula → Except Fault Bool
  | True_, f => pure (f.getType == T_TRUE)
  | False_, f => pure (f.getType == T_FALSE)
  | Atom _p _ops, f => atomEqualToChecked _p _ops f
  | Equality lop rop, f => atomEqualToChecked "=" [lop, rop] f
  | Disequality lop rop, f => atomEqualToChecked "~=" [lop, rop] f
  -- UnaryConnective::equalTo, with this->getType() == T_NOT
  | Not_ _op, f =>
    if f.getType == T_NOT then do
      let fop ← f.getOperand
      equalToChecked _op fop
    else pure false
  -- BinaryConnective::equalTo
  | And_ _op1 _op2, f =>
    if f.getType == T_AND then do
      let fop1 ← f.getOperand1
      if ← equalToChecked _op1 fop1 then do
        let fop2 ← f.getOperand2
        equalToChecked _op2 fop2
      else pure false
    else pure false
  | Or_ _op1 _op2, f =>
    if f.getType == T_OR then do
      let fop1 ← f.getOperand1
      if ← equalToChecked _op1 fop1 then do
        let fop2 ← f.getOperand2
        equalToChecked _op2 fop2
      else pure false
    else pure false
  | Imp _op1 _op2, f =>
    if f.getType == T_IMP then do
      let fop1 ← f.getOperand1
      if ← equalToChecked _op1 fop1 then do
        let fop2 ← f.getOperand2
        equalToChecked _op2 fop2
      else pure false
    else pure false
  | Iff_ _op1 _op2, f =>
    if f.getType == T_IFF then do
      let fop1 ← f.getOperand1
      if ← equalToChecked _op1 fop1 then do
        let fop2 ← f.getOperand2
        equalToChecked _op2 fop2
      else pure false
    else pure false
  -- Quantifier::equalTo
  | Forall _v _op, f =>
    if f.getType == T_FORALL then do
      let fv ← f.getVariable
      if fv == _v then do
        let fop ← f.getOperand
        equalToChecked _op fop
      else pure false
    else pure false
  | Exists_ _v _op, f =>
    if f.getType == T_EXISTS then do
      let fv ← f.getVariable
      if fv == _v then do
        let fop ← f.getOperand
        equalToChecked _op fop
      else pure false
    else pure false

/-- Embeds the `hashCode` methods of the formula classes with the index
operations of the loop of `Atom::hashCode` spelled out. -/
def hashCodeChecked (H : String → Nat) : BaseFormula → Except Fault Nat
  | True_ => pure (H "true" % WORD)
  | False_ => pure (H "false" % WORD)
  | Atom _p _ops => BaseTerm.hashCodeLoopChecked H _ops 0 (H _p % WORD)
  | Equality lop rop => BaseTerm.hashCodeLoopChecked H [lop, rop] 0 (H "=" % WORD)
  | Disequality lop rop => BaseTerm.hashCodeLoopChecked H [lop, rop] 0 (H "~=" % WORD)
  | Not_ _op => do
    let c ← hashCodeChecked H _op
    pure (salt T_NOT ^^^ c)
  | And_ _op1 _op2 => do
    let c1 ← hashCodeChecked H _op1
    let c2 ← hashCodeChecked H _op2
    pure (salt T_AND ^^^ c1 ^^^ c2)
  | Or_ _op1 _op2 => do
    let c1 ← hashCodeChecked H _op1
    let c2 ← hashCodeChecked H _op2
    pure (salt T_OR ^^^ c1 ^^^ c2)
  | Imp _op1 _op2 => do
    let c1 ← hashCodeChecked H _op1
    let c2 ← hashCodeChecked H _op2
    pure (salt T_IMP ^^^ c1 ^^^ c2)
  | Iff_ _op1 _op2 => do
    let c1 ← hashCodeChecked H _op1
    let c2 ← hashCodeChecked H _op2
    pure (salt T_IFF ^^^ c1 ^^^ c2)
  | Forall _v _op => do
    let c ← hashCodeChecked H _op
    pure (salt T_FORALL ^^^ c ^^^ (H _v % WORD))
  | Exists_ _v _op => do
    let c ← hashCodeChecked H _op
    pure (salt T_EXISTS ^^^ c ^^^ (H _v % WORD))

/-- The body shared by `Equality::printFormula` and `Disequality::printFormula`:
`_ops[0]->printTerm(ostr); ostr << sep; _ops[1]->printTerm(ostr);`. -/
def printInfixChecked (_ops : List BaseTerm) (sep : String) (ostr : ostream) (w : Output) :
    Except Fault Output :=
  match _ops[0]?, _ops[1]? with
  | some l, some r => do
    let w ← BaseTerm.printTermChecked l ostr w
    let w := w.put ostr sep
    BaseTerm.printTermChecked r ostr w
  | _, _ => throw .OutOfRange

/-- The body shared by the `printFormula` methods of `And`, `Or`, `Imp` and
`Iff`, given the two parenthesization tests, the operator text and the
printers of the operands. -/
def printBinaryChecked (paren1 paren2 : Bool) (op : String)
    (print1 print2 : ostream → Output → Except Fault Output)
    (ostr : ostream) (w : Output) : Except Fault Output := do
  let w := if paren1 then w.put ostr "(" else w
  let w ← print1 ostr w
  let w := if paren1 then w.put ostr ")" else w
  let w := w.put ostr op
  let w := if paren2 then w.put ostr "(" else w
  let w ← print2 ostr w
  pure (if paren2 then w.put ostr ")" else w)

/-- Embeds the `printFormula` methods of the formula classes with the index
operations spelled out. -/
def printFormulaChecked : BaseFormula → ostream → Output → Except Fault Output
  | True_, ostr, w => pure (w.put ostr "true")
  | False_, ostr, w => pure (w.put ostr "false")
  | Atom _p _ops, ostr, w => BaseTerm.printLoopChecked _ops 0 ostr (w.put ostr _p)
  | Equality lop rop, ostr, w => printInfixChecked [lop, rop] " = " ostr w
  | Disequality lop rop, ostr, w => printInfixChecked [lop, rop] " ~= " ostr w
  | Not_ _op, ostr, w => do
    let w := w.put ostr "~"
    let op_type := _op.getType
    let paren := op_type == T_AND || op_type == T_OR ||
      op_type == T_IMP || op_type == T_IFF ||
      op_type == T_FORALL || op_type == T_EXISTS
    let w := if paren then w.put ostr "(" else w
    let w ← printFormulaChecked _op ostr w
    pure (if paren then w.put ostr ")" else w)
  | And_ _op1 _op2, ostr, w =>
    let op1_type := _op1.getType
    let op2_type := _op2.getType
    printBinaryChecked
      (op1_type == T_OR || op1_type == T_IMP ||
        op1_type == T_IFF ||
        op1_type == T_FORALL || op1_type == T_EXISTS)
      (op2_type == T_OR || op2_type == T_IMP ||
        op2_type == T_IFF || op2_type == T_AND ||
        op2_type == T_FORALL || op2_type == T_EXISTS)
      " & " (printFormulaChecked _op1) (printFormulaChecked _op2) ostr w
  | Or_ _op1 _op2, ostr, w =>
    let op1_type := _op1.getType
    let op2_type := _op2.getType
    printBinaryChecked
      (op1_type == T_IMP || op1_type == T_IFF ||
        op1_type == T_FORALL || op1_type == T_EXISTS)
      (op2_type == T_IMP ||
        op2_type == T_IFF || op2_type == T_OR ||
        op2_type == T_FORALL || op2_type == T_EXISTS)
      " | " (printFormulaChecked _op1) (printFormulaChecked _op2) ostr w
  | Imp _op1 _op2, ostr, w =>
    let op1_type := _op1.getType
    let op2_type := _op2.getType
    printBinaryChecked
      (op1_type == T_IMP || op1_type == T_IFF ||
        op1_type == T_FORALL || op1_type == T_EXISTS)
      (op2_type == T_IFF ||
        op2_type == T_FORALL || op2_type == T_EXISTS)
      " => " (printFormulaChecked _op1) (printFormulaChecked _op2) ostr w
  | Iff_ _op1 _op2, ostr, w =>
    let op1_type := _op1.getType
    let op2_type := _op2.getType
    printBinaryChecked
      (op1_type == T_IFF ||
        op1_type == T_FORALL || op1_type == T_EXISTS)
      (op2_type == T_FORALL || op2_type == T_EXISTS)
      " <=> " (printFormulaChecked _op1) (printFormulaChecked _op2) ostr w
  | Forall _v _op, ostr, w =>
    let w := ((w.put .cout "!").put .cout _v).put .cout " . "
    printFormulaChecked _op ostr w
  | Exists_ _v _op, ostr, w =>
    let w := ((w.put .cout "?").put .cout _v).put .cout " . "
    printFormulaChecked _op ostr w

end BaseFormula

/-! ## The text a printer emits -/

/-- The text of a term: what `cout << t` leaves on an empty `cout`. -/
def BaseTerm.str (t : BaseTerm) : String :=
  BaseTerm.printTerm t .cout Output.empty .cout

/-- The text that `f->printFormula(ostr)`, run with all streams empty, leaves
on each stream. -/
def BaseFormula.emitted (f : BaseFormula) (ostr : ostream) : Output :=
  BaseFormula.printFormula f ostr Output.empty

/-- The text that `f->printFormula(ostr)` adds to the stream `ostr` it is
handed. -/
def BaseFormula.shown (f : BaseFormula) (ostr : ostream) : String :=
  BaseFormula.emitted f ostr ostr

/-- A printing step only appends: there is one text per stream that the step
adds to whatever the stream held before. -/
def Appends (p : Output → Output) : Prop :=
  ∃ d : Output, ∀ w : Output, p w = fun x => w x ++ d x

/-- An operand in parentheses, or bare. -/
def parenthesized (paren : Bool) (s : String) : String :=
  if paren then "(" ++ s ++ ")" else s

/-- The text of an application as the specification words it: the bare symbol
when there are no operands, otherwise the symbol, `(`, the operand texts joined
by `,` with no spaces, and `)`. -/
def applicationText (s : String) (ops : List String) : String :=
  if ops.isEmpty then s else s ++ "(" ++ ",".intercalate ops ++ ")"

/-! ## Concrete inputs for the examples -/

namespace Sample

/-- A string hash to compute with: the length of the string. -/
def H : String → Nat := String.length

/-- The term `x`. -/
def x : BaseTerm := .VariableTerm "x"
/-- The term `y`. -/
def y : BaseTerm := .VariableTerm "y"
/-- The term `z`. -/
def z : BaseTerm := .VariableTerm "z"
/-- The term `f(x)`. -/
def fx : BaseTerm := .FunctionTerm "f" [x]
/-- The formula `P(x)`. -/
def Px : BaseFormula := .Atom "P" [x]

/-- A term registry holding one object for `x` and one for `f(x)`. -/
def tdb : TermDatabase := ⟨[⟨1, fx⟩, ⟨0, x⟩]⟩

/-- A formula registry holding one object for `P(x)` and one for `~P(x)`. -/
def fdb : FormulaDatabase := ⟨[⟨3, .Not_ Px⟩, ⟨2, Px⟩]⟩

end Sample

/-- The formula pool after `makeAtom("=", {x, y})`, the handle being alive. -/
def Sample.fdbEq : FormulaDatabase :=
  (FormulaDatabase.empty.makeAtom Sample.H ⟨2⟩ "=" [⟨0, Sample.x⟩, ⟨1, Sample.y⟩]).2.1

/-- The formula pool after `makeAtom("~=", {x, y})`, the handle being alive. -/
def Sample.fdbNe : FormulaDatabase :=
  (FormulaDatabase.empty.makeAtom Sample.H ⟨2⟩ "~=" [⟨0, Sample.x⟩, ⟨1, Sample.y⟩]).2.1

/-- The use counts that go with `Sample.tdb` and `Sample.fdb` when the client
holds one handle each to `x`, `f(x)` and `~P(x)`: `x` is also owned by `f(x)`
and by `P(x)`, and `P(x)` is owned by `~P(x)` alone. -/
def Sample.uc : UseCount := fun s => if s = 0 then 3 else 1

namespace BaseTerm

mutual
/-- Fact: `equalTo` on terms decides equality of the two trees. -/
theorem equalTo_iff_eq : ∀ a b : BaseTerm, equalTo a b = true ↔ a = b
  | VariableTerm v, VariableTerm tv => by
    simp only [equalTo, beq_iff_eq, VariableTerm.injEq]
    exact eq_comm
  | VariableTerm v, FunctionTerm tf tops => by
    simp [equalTo]
  | FunctionTerm f ops, VariableTerm tv => by
    simp [equalTo]
  | FunctionTerm f ops, FunctionTerm tf tops => by
    have ih := equalToLoop_iff_eq ops tops
    by_cases hf : tf = f
    · by_cases hl : tops.length = ops.length
      · simp [equalTo, hf, hl, ih hl]
      · have hne : ops ≠ tops := fun h => hl (by rw [h])
        simp [equalTo, hf, hl, hne]
    · have hne : ¬ f = tf := fun h => hf h.symm
      simp [equalTo, hf, hne]
/-- The operand loop, entered with vectors of equal size, decides equality of
the operand lists. -/
theorem equalToLoop_iff_eq : ∀ ops tops : List BaseTerm,
    tops.length = ops.length → (equalToLoop ops tops = true ↔ ops = tops)
  | [], [], _ => by simp [equalToLoop]
  | [], _ :: _, h => by simp at h
  | _ :: _, [], h => by simp at h
  | o :: ops, t :: tops, h => by
    have ih1 := equalTo_iff_eq o t
    have ih2 := equalToLoop_iff_eq ops tops (by simpa using h)
    by_cases ho : equalTo o t = true
    · have hot : o = t := ih1.mp ho
      subst hot
      simp [equalToLoop, ho, ih2]
    · have hne : ¬ o = t := fun h => ho (ih1.mpr h)
      simp [equalToLoop, ho, hne]
end

/-- Every term is `equalTo` itself. -/
theorem equalTo_refl (a : BaseTerm) : equalTo a a = true :=
  (equalTo_iff_eq a a).mpr rfl

/-- On equal-sized operand lists the loop is reflexive. -/
theorem equalToLoop_refl (ops : List BaseTerm) : equalToLoop ops ops = true :=
  (equalToLoop_iff_eq ops ops rfl).mpr rfl

end BaseTerm

/-! ## Structural equality and hashing of formulas -/

namespace BaseFormula

/-- Fact: `Atom::equalTo` succeeds exactly on the objects whose `Atom` subobject has
the same symbol and the same operands. -/
theorem atomEqualTo_iff (p : PredicateSymbol) (ops : List BaseTerm) (f : BaseFormula) :
    atomEqualTo p ops f = true ↔ atomFields f = some (p, ops) := by
  unfold atomEqualTo
  cases hf : atomFields f with
  | none => simp
  | some q =>
    obtain ⟨fp, fops⟩ := q
    by_cases hp : fp = p
    · by_cases hl : fops.length = ops.length
      · have h := BaseTerm.equalToLoop_iff_eq ops fops hl
        simp only [hp, hl, bne_self_eq_false, Bool.false_eq_true, if_false, h,
          Option.some.injEq, Prod.mk.injEq, true_and]
        exact eq_comm
      · have hne : ¬ fops = ops := fun h => hl (by rw [h])
        simp [hp, hl, hne]
    · simp [hp]

/-- The `Atom` subobject of a formula, read off its `asAtom` form. -/
theorem atomFields_eq_some_iff (p : PredicateSymbol) (ops : List BaseTerm) (f : BaseFormula) :
    atomFields f = some (p, ops) ↔ asAtom f = Atom p ops := by
  cases f <;> simp [atomFields, asAtom]

/-- Fact: `equalTo` on formulas decides equality of the two trees once `Equality` and
`Disequality` nodes are read as the atoms they store. -/
theorem equalTo_iff_asAtom_eq (a b : BaseFormula) :
    equalTo a b = true ↔ asAtom a = asAtom b := by
  induction a generalizing b with
  | True_ => cases b <;> simp [equalTo, getType, asAtom]
  | False_ => cases b <;> simp [equalTo, getType, asAtom]
  | Atom p ops =>
    rw [equalTo, atomEqualTo_iff, atomFields_eq_some_iff]
    simp only [asAtom]
    exact eq_comm
  | Equality l r =>
    rw [equalTo, atomEqualTo_iff, atomFields_eq_some_iff]
    simp only [asAtom]
    exact eq_comm
  | Disequality l r =>
    rw [equalTo, atomEqualTo_iff, atomFields_eq_some_iff]
    simp only [asAtom]
    exact eq_comm
  | Not_ op ih => cases b <;> simp [equalTo, asAtom, ih]
  | And_ op1 op2 ih1 ih2 => cases b <;> simp [equalTo, asAtom, ih1, ih2]
  | Or_ op1 op2 ih1 ih2 => cases b <;> simp [equalTo, asAtom, ih1, ih2]
  | Imp op1 op2 ih1 ih2 => cases b <;> simp [equalTo, asAtom, ih1, ih2]
  | Iff_ op1 op2 ih1 ih2 => cases b <;> simp [equalTo, asAtom, ih1, ih2]
  | Forall v op ih =>
    cases b <;> simp [equalTo, asAtom, ih]
    intro _
    exact eq_comm
  | Exists_ v op ih =>
    cases b <;> simp [equalTo, asAtom, ih]
    intro _
    exact eq_comm

/-- Every formula is `equalTo` itself. -/
theorem equalTo_self (a : BaseFormula) : equalTo a a = true :=
  (equalTo_iff_asAtom_eq a a).mpr rfl

/-- Fact: `equalTo` on formulas is symmetric. -/
theorem equalTo_symm {a b : BaseFormula} (h : equalTo a b = true) : equalTo b a = true :=
  (equalTo_iff_asAtom_eq b a).mpr ((equalTo_iff_asAtom_eq a b).mp h).symm

/-- Fact: `equalTo` on formulas is transitive. -/
theorem equalTo_trans {a b c : BaseFormula} (h1 : equalTo a b = true)
    (h2 : equalTo b c = true) : equalTo a c = true :=
  (equalTo_iff_asAtom_eq a c).mpr
    (((equalTo_iff_asAtom_eq a b).mp h1).trans ((equalTo_iff_asAtom_eq b c).mp h2))

/-- Fact: `hashCode` only looks at the `asAtom` form of a formula. -/
theorem hashCode_asAtom (H : String → Nat) (a : BaseFormula) :
    hashCode H (asAtom a) = hashCode H a := by
  induction a with
  | True_ => rfl
  | False_ => rfl
  | Atom p ops => rfl
  | Equality l r => rfl
  | Disequality l r => rfl
  | Not_ op ih => simp only [asAtom, hashCode, ih]
  | And_ op1 op2 ih1 ih2 => simp only [asAtom, hashCode, ih1, ih2]
  | Or_ op1 op2 ih1 ih2 => simp only [asAtom, hashCode, ih1, ih2]
  | Imp op1 op2 ih1 ih2 => simp only [asAtom, hashCode, ih1, ih2]
  | Iff_ op1 op2 ih1 ih2 => simp only [asAtom, hashCode, ih1, ih2]
  | Forall v op ih => simp only [asAtom, hashCode, ih]
  | Exists_ v op ih => simp only [asAtom, hashCode, ih]

/-- Formulas that are `equalTo` each other have the same `hashCode`. -/
theorem hashCode_eq_of_equalTo (H : String → Nat) {a b : BaseFormula}
    (h : equalTo a b = true) : hashCode H a = hashCode H b := by
  rw [← hashCode_asAtom H a, ← hashCode_asAtom H b, (equalTo_iff_asAtom_eq a b).mp h]

end BaseFormula

/-! ## The registry as a set of canonical entries -/

namespace unordered_set

variable {α : Type} {K : KeyOps α}

/-- With a consistent hash, the lookup test is the key equality. -/
theorem hit_iff (hK : K.Lawful) (k e : Obj α) :
    hit K k e = true ↔ K.equal_to k.node e.node = true := by
  unfold hit
  constructor
  · intro h
    simp only [Bool.and_eq_true] at h
    exact h.2
  · intro h
    have hh := hK.hash_eq _ _ h
    simp [h, hh]

/-- What `find` returns is stored and equivalent to the key. -/
theorem find_some (hK : K.Lawful) {s : unordered_set α} {k e : Obj α}
    (h : find K s k = some e) : e ∈ s ∧ K.equal_to k.node e.node = true :=
  ⟨List.mem_of_find?_eq_some h, (hit_iff hK k e).mp (List.find?_some h)⟩

/-- The lookup fails exactly when no stored element is equivalent to the key. -/
theorem find_eq_none_iff (hK : K.Lawful) (s : unordered_set α) (k : Obj α) :
    find K s k = none ↔ ∀ e ∈ s, K.equal_to k.node e.node = false := by
  unfold find
  rw [List.find?_eq_none]
  constructor
  · intro h e he
    have := h e he
    rw [hit_iff hK] at this
    simpa using this
  · intro h e he
    rw [hit_iff hK, h e he]
    simp

/-- Storing a key that found nothing keeps the stored elements inequivalent. -/
theorem insert_canonical (hK : K.Lawful) {s : unordered_set α} (k : Obj α)
    (hs : Canonical K s) : Canonical K (insert K s k) := by
  unfold insert
  cases hf : find K s k with
  | some e => simpa using hs
  | none =>
    have hn := (find_eq_none_iff hK s k).mp hf
    simp only [Option.isSome_none, Bool.false_eq_true, if_false]
    exact List.Pairwise.cons hn hs

/-- Removing an element keeps the stored elements inequivalent. -/
theorem erase_canonical {s : unordered_set α} (k : Obj α)
    (hs : Canonical K s) : Canonical K (erase K s k) :=
  List.Pairwise.sublist (List.eraseP_sublist s) hs

/-- In a canonical set, erasing a stored element keeps every other element. -/
theorem erase_keeps (hK : K.Lawful) {s : unordered_set α} {e : Obj α}
    (hs : Canonical K s) (he : e ∈ s) :
    ∀ x ∈ s, x ≠ e → x ∈ erase K s e := by
  induction s with
  | nil => simp at he
  | cons a t ih =>
    have hs' := List.pairwise_cons.mp hs
    intro x hx hxe
    unfold erase
    by_cases hit_a : hit K e a = true
    · rw [List.eraseP_cons_of_pos hit_a]
      have hea := (hit_iff hK e a).mp hit_a
      have hae : a = e := by
        rcases List.mem_cons.mp he with h | h
        · exact h.symm
        · have := hs'.1 e h
          rw [hK.symm _ _ hea] at this
          exact absurd this (by simp)
      rcases List.mem_cons.mp hx with h | h
      · exact absurd (h.trans hae) hxe
      · exact h
    · rw [List.eraseP_cons_of_neg hit_a]
      have het : e ∈ t := by
        rcases List.mem_cons.mp he with h | h
        · subst h
          rw [hit_iff hK, hK.refl] at hit_a
          exact absurd rfl hit_a
        · exact h
      rcases List.mem_cons.mp hx with h | h
      · rw [h]
        exact List.mem_cons_self _ _
      · exact List.mem_cons_of_mem _ (ih hs'.2 het x h hxe)

end unordered_set

namespace unordered_set

variable {α : Type} {K : KeyOps α}

/-- In a canonical set, equivalent stored elements are the same element. -/
theorem eq_of_equal_to (hK : K.Lawful) {s : unordered_set α} (hs : Canonical K s)
    {a b : Obj α} (ha : a ∈ s) (hb : b ∈ s)
    (hab : K.equal_to a.node b.node = true) : a = b := by
  by_contra hne
  have hsym : Symmetric (fun a b : Obj α => K.equal_to a.node b.node = false) := by
    intro x y hxy
    by_contra hc
    have := hK.symm _ _ (by simpa using hc)
    rw [hxy] at this
    exact Bool.false_ne_true this
  have := List.Pairwise.forall hsym hs ha hb hne
  rw [hab] at this
  exact Bool.false_ne_true this.symm

/-- After a failed lookup the key is stored in front. -/
theorem insert_of_find_none {s : unordered_set α} {k : Obj α}
    (h : find K s k = none) : insert K s k = k :: s := by
  simp [insert, h]

end unordered_set

/-! ## The two key relations are lawful -/

/-- Terms that are `equalTo` each other have the same `hashCode`. -/
theorem BaseTerm.hashCode_congr (H : String → Nat) {a b : BaseTerm}
    (h : BaseTerm.equalTo a b = true) : BaseTerm.hashCode H a = BaseTerm.hashCode H b := by
  rw [(BaseTerm.equalTo_iff_eq a b).mp h]

/-- The key operations of the term registry meet the requirements of
`unordered_set`. -/
theorem termKeys_lawful (H : String → Nat) : (termKeys H).Lawful where
  refl := BaseTerm.equalTo_refl
  symm := by
    intro a b h
    rw [(BaseTerm.equalTo_iff_eq a b).mp h]
    exact BaseTerm.equalTo_refl b
  trans := by
    intro a b c h1 h2
    rw [(BaseTerm.equalTo_iff_eq a b).mp h1]
    exact h2
  hash_eq := fun _ _ h => BaseTerm.hashCode_congr H h

/-- The key operations of the formula registry meet the requirements of
`unordered_set`. -/
theorem formulaKeys_lawful (H : String → Nat) : (formulaKeys H).Lawful where
  refl := BaseFormula.equalTo_self
  symm := fun _ _ h => BaseFormula.equalTo_symm h
  trans := fun _ _ _ h1 h2 => BaseFormula.equalTo_trans h1 h2
  hash_eq := fun _ _ h => BaseFormula.hashCode_eq_of_equalTo H h

/-! ## Destruction only takes entries away -/

/-- A use count that is zero stays zero when a handle goes away. -/
theorem UseCount.drop_zero (uc : UseCount) (s x : Nat) (h : uc x = 0) : uc.drop s x = 0 := by
  unfold UseCount.drop
  split
  · rw [h]
  · exact h

namespace TermDatabase

/-- A sublist of a canonical registry is canonical. -/
theorem Canonical.of_sublist {db db2 : TermDatabase} (hc : db.Canonical)
    (hs : db2._terms.Sublist db._terms) : db2.Canonical :=
  List.Pairwise.sublist hs hc

/-- Doing nothing is a destruction step. -/
theorem Releases.step_skip : Releases (fun _ => false) (fun db uc => (db, uc)) :=
  fun _ _ => ⟨List.Sublist.refl _, fun _ h => h, fun _ _ hy => Or.inl hy⟩

/-- Destruction steps can be run one after the other. -/
theorem Releases.step_comp {ex : Obj BaseTerm → Bool}
    {f g : TermDatabase → UseCount → TermDatabase × UseCount}
    (hf : Releases ex f) (hg : Releases (fun _ => false) g) :
    Releases ex (fun db uc => g (f db uc).1 (f db uc).2) := by
  intro db uc
  obtain ⟨f1, f2, f3⟩ := hf db uc
  obtain ⟨g1, g2, g3⟩ := hg (f db uc).1 (f db uc).2
  refine ⟨g1.trans f1, fun x hx => g2 x (f2 x hx), fun hc y hy => ?_⟩
  rcases f3 hc y hy with h | h | h
  · rcases g3 (hc.of_sublist f1) y h with h2 | h2 | h2
    · exact Or.inl h2
    · exact Or.inr (Or.inl h2)
    · exact absurd h2 (by simp)
  · exact Or.inr (Or.inl (g2 _ h))
  · exact Or.inr (Or.inr h)

/-- Erasing the entry for a key is a destruction step that erases outright the
entries the key hits. -/
theorem Releases.step_erase (H : String → Nat) (k : Obj BaseTerm) :
    Releases (unordered_set.hit (termKeys H) k)
      (fun db uc => (⟨unordered_set.erase (termKeys H) db._terms k⟩, uc)) := by
  intro db uc
  refine ⟨List.eraseP_sublist _, fun _ h => h, fun _ y hy => ?_⟩
  by_cases hk : unordered_set.hit (termKeys H) k y = true
  · exact Or.inr (Or.inr hk)
  · exact Or.inl ((List.mem_eraseP_of_neg hk).mpr hy)

/-- Releasing one handle is a destruction step when the deleter erases the
pointee and goes on with a destruction step. -/
theorem Releases.step_releaseWith (H : String → Nat) (o : BaseTerm)
    (deleter : Nat → TermDatabase → UseCount → TermDatabase × UseCount)
    (hd : ∀ s, Releases (unordered_set.hit (termKeys H) ⟨s, o⟩) (deleter s)) :
    Releases (fun _ => false) (TermDatabase.releaseWith H o deleter) := by
  intro db uc
  unfold TermDatabase.releaseWith
  cases hp : db.pointee H o with
  | none => exact Releases.step_skip db uc
  | some p =>
    simp only
    obtain ⟨hpm, hpe⟩ := unordered_set.find_some (termKeys_lawful H) hp
    by_cases hz : uc.drop p.serial p.serial = 0
    · rw [if_pos hz]
      obtain ⟨d1, d2, d3⟩ := hd p.serial db (uc.drop p.serial)
      refine ⟨d1, fun x hx => d2 x (UseCount.drop_zero uc _ x hx), fun hc y hy => ?_⟩
      rcases d3 hc y hy with h | h | h
      · exact Or.inl h
      · exact Or.inr (Or.inl h)
      · have hoy := (unordered_set.hit_iff (termKeys_lawful H) _ y).mp h
        have hK := termKeys_lawful H
        have hpy : p = y := unordered_set.eq_of_equal_to hK hc hpm hy
          (hK.trans _ _ _ (hK.symm _ _ hpe) hoy)
        rw [← hpy]
        exact Or.inr (Or.inl (d2 _ hz))
    · rw [if_neg hz]
      exact ⟨List.Sublist.refl _, fun x hx => UseCount.drop_zero uc _ x hx,
        fun _ y hy => Or.inl hy⟩

mutual
/-- Fact: `removeTerm` on an object with a given tree is a destruction step
that erases outright only the entries its key hits. -/
theorem removeNode_releases (H : String → Nat) : ∀ (t : BaseTerm) (s : Nat),
    Releases (unordered_set.hit (termKeys H) ⟨s, t⟩) (removeNode H s t)
  | .VariableTerm v, s => by
    have h := Releases.step_erase H ⟨s, .VariableTerm v⟩
    intro db uc
    rw [removeNode]
    exact h db uc
  | .FunctionTerm f ops, s => by
    have h := (Releases.step_erase H ⟨s, .FunctionTerm f ops⟩).step_comp (releaseAll_releases H ops)
    intro db uc
    rw [removeNode]
    exact h db uc
/-- The destructor of a vector of handles is a destruction step. -/
theorem releaseAll_releases (H : String → Nat) : ∀ ops : List BaseTerm,
    Releases (fun _ => false) (releaseAll H ops)
  | [] => by
    intro db uc
    rw [releaseAll]
    exact Releases.step_skip db uc
  | o :: rest => by
    have h1 := Releases.step_releaseWith H o (fun s db uc => removeNode H s o db uc)
      (fun s => removeNode_releases H o s)
    have h := h1.step_comp (releaseAll_releases H rest)
    intro db uc
    rw [releaseAll]
    exact h db uc
end

end TermDatabase

namespace FormulaDatabase

/-- A sublist of a canonical registry is canonical. -/
theorem Canonical.of_sublist_formulas {db db2 : FormulaDatabase} (hc : db.Canonical)
    (hs : db2._formulas.Sublist db._formulas) : db2.Canonical :=
  List.Pairwise.sublist hs hc

/-- Doing nothing is a destruction step. -/
theorem Releases.step_skip_pools : Releases (fun _ => false) (fun st => st) :=
  fun _ => ⟨List.Sublist.refl _, List.Sublist.refl _, fun _ h => h,
    fun _ _ hy => Or.inl hy, fun _ _ hy => Or.inl hy⟩

/-- Destruction steps can be run one after the other. -/
theorem Releases.step_comp_pools {ex : Obj BaseFormula → Bool} {f g : Pools → Pools}
    (hf : Releases ex f) (hg : Releases (fun _ => false) g) :
    Releases ex (fun st => g (f st)) := by
  intro st
  obtain ⟨f1, f2, f3, f4, f5⟩ := hf st
  obtain ⟨g1, g2, g3, g4, g5⟩ := hg (f st)
  refine ⟨g1.trans f1, g2.trans f2, fun x hx => g3 x (f3 x hx), fun hc y hy => ?_,
    fun hc y hy => ?_⟩
  · rcases f4 hc y hy with h | h | h
    · rcases g4 (hc.of_sublist_formulas f1) y h with h2 | h2 | h2
      · exact Or.inl h2
      · exact Or.inr (Or.inl h2)
      · exact absurd h2 (by simp)
    · exact Or.inr (Or.inl (g3 _ h))
    · exact Or.inr (Or.inr h)
  · rcases f5 hc y hy with h | h
    · exact g5 (hc.of_sublist f2) y h
    · exact Or.inr (g3 _ h)

/-- Erasing the entry for a key is a destruction step that erases outright the
entries the key hits. -/
theorem Releases.step_eraseNode (H : String → Nat) (s : Nat) (node : BaseFormula) :
    Releases (unordered_set.hit (formulaKeys H) ⟨s, node⟩) (eraseNode H s node) := by
  intro st
  refine ⟨List.eraseP_sublist _, List.Sublist.refl _, fun _ h => h, fun _ y hy => ?_,
    fun _ _ hy => Or.inl hy⟩
  by_cases hk : unordered_set.hit (formulaKeys H) ⟨s, node⟩ y = true
  · exact Or.inr (Or.inr hk)
  · exact Or.inl ((List.mem_eraseP_of_neg hk).mpr hy)

/-- Releasing the `Term` handles of an atom is a destruction step. -/
theorem Releases.step_releaseTerms (H : String → Nat) (ops : List BaseTerm) :
    Releases (fun _ => false) (releaseTerms H ops) := by
  intro st
  obtain ⟨t1, t2, t3⟩ := TermDatabase.releaseAll_releases H ops st.terms st.use_count
  refine ⟨List.Sublist.refl _, t1, t2, fun _ _ hy => Or.inl hy, fun hc y hy => ?_⟩
  rcases t3 hc y hy with h | h | h
  · exact Or.inl h
  · exact Or.inr h
  · exact absurd h (by simp)

/-- Releasing one `Formula` handle is a destruction step when the deleter
erases the pointee and goes on with a destruction step. -/
theorem Releases.step_releaseWith_pools (H : String → Nat) (o : BaseFormula)
    (deleter : Nat → Pools → Pools)
    (hd : ∀ s, Releases (unordered_set.hit (formulaKeys H) ⟨s, o⟩) (deleter s)) :
    Releases (fun _ => false) (FormulaDatabase.releaseWith H o deleter) := by
  intro st
  unfold FormulaDatabase.releaseWith
  cases hp : st.formulas.pointee H o with
  | none => exact Releases.step_skip_pools st
  | some p =>
    simp only
    obtain ⟨hpm, hpe⟩ := unordered_set.find_some (formulaKeys_lawful H) hp
    by_cases hz : st.use_count.drop p.serial p.serial = 0
    · rw [if_pos hz]
      obtain ⟨d1, d2, d3, d4, d5⟩ :=
        hd p.serial { st with use_count := st.use_count.drop p.serial }
      refine ⟨d1, d2, fun x hx => d3 x (UseCount.drop_zero _ _ x hx), fun hc y hy => ?_,
        fun hc y hy => d5 hc y hy⟩
      rcases d4 hc y hy with h | h | h
      · exact Or.inl h
      · exact Or.inr (Or.inl h)
      · have hoy := (unordered_set.hit_iff (formulaKeys_lawful H) _ y).mp h
        have hK := formulaKeys_lawful H
        have hpy : p = y := unordered_set.eq_of_equal_to hK hc hpm hy
          (hK.trans _ _ _ (hK.symm _ _ hpe) hoy)
        rw [← hpy]
        exact Or.inr (Or.inl (d3 _ hz))
    · rw [if_neg hz]
      exact ⟨List.Sublist.refl _, List.Sublist.refl _,
        fun x hx => UseCount.drop_zero _ _ x hx, fun _ y hy => Or.inl hy,
        fun _ y hy => Or.inl hy⟩

/-- Fact: `removeFormula` on an object with a given tree is a destruction step
that erases outright only the entries its key hits. -/
theorem removeNode_releases_pools (H : String → Nat) (node : BaseFormula) :
    ∀ s : Nat, Releases (unordered_set.hit (formulaKeys H) ⟨s, node⟩) (removeNode H s node) := by
  induction node with
  | True_ => exact fun s => Releases.step_eraseNode H s _
  | False_ => exact fun s => Releases.step_eraseNode H s _
  | Atom p ops =>
    exact fun s => (Releases.step_eraseNode H s _).step_comp_pools
        (Releases.step_releaseTerms H ops)
  | Equality l r =>
    exact fun s => (Releases.step_eraseNode H s _).step_comp_pools
        (Releases.step_releaseTerms H [l, r])
  | Disequality l r =>
    exact fun s => (Releases.step_eraseNode H s _).step_comp_pools
        (Releases.step_releaseTerms H [l, r])
  | Not_ op ih =>
    exact fun s => (Releases.step_eraseNode H s _).step_comp_pools
      (Releases.step_releaseWith_pools H op _ ih)
  | And_ a b iha ihb =>
    exact fun s => ((Releases.step_eraseNode H s _).step_comp_pools
      (Releases.step_releaseWith_pools H b _ ihb)).step_comp_pools
      (Releases.step_releaseWith_pools H a _ iha)
  | Or_ a b iha ihb =>
    exact fun s => ((Releases.step_eraseNode H s _).step_comp_pools
      (Releases.step_releaseWith_pools H b _ ihb)).step_comp_pools
      (Releases.step_releaseWith_pools H a _ iha)
  | Imp a b iha ihb =>
    exact fun s => ((Releases.step_eraseNode H s _).step_comp_pools
      (Releases.step_releaseWith_pools H b _ ihb)).step_comp_pools
      (Releases.step_releaseWith_pools H a _ iha)
  | Iff_ a b iha ihb =>
    exact fun s => ((Releases.step_eraseNode H s _).step_comp_pools
      (Releases.step_releaseWith_pools H b _ ihb)).step_comp_pools
      (Releases.step_releaseWith_pools H a _ iha)
  | Forall v op ih =>
    exact fun s => (Releases.step_eraseNode H s _).step_comp_pools
      (Releases.step_releaseWith_pools H op _ ih)
  | Exists_ v op ih =>
    exact fun s => (Releases.step_eraseNode H s _).step_comp_pools
      (Releases.step_releaseWith_pools H op _ ih)

end FormulaDatabase

/-! ## Destruction reaches only the object and what it is built from -/

namespace TermDatabase

/-- Doing nothing spares every entry. -/
theorem Spares.spare_skip : Spares (fun _ => false) (fun db uc => (db, uc)) :=
  fun _ _ _ hy _ => hy

/-- A step that spares what is not touched spares what a larger set does not
touch. -/
theorem Spares.mono {t1 t2 : BaseTerm → Bool}
    {op : TermDatabase → UseCount → TermDatabase × UseCount}
    (h : Spares t1 op) (h12 : ∀ y, t2 y = false → t1 y = false) : Spares t2 op :=
  fun db uc y hy hty => h db uc y hy (h12 _ hty)

/-- Two steps run one after the other spare what neither touches. -/
theorem Spares.spare_comp {t1 t2 : BaseTerm → Bool}
    {f g : TermDatabase → UseCount → TermDatabase × UseCount}
    (hf : Spares t1 f) (hg : Spares t2 g) :
    Spares (fun y => t1 y || t2 y) (fun db uc => g (f db uc).1 (f db uc).2) := by
  intro db uc y hy hty
  simp only [Bool.or_eq_false_iff] at hty
  exact hg _ _ y (hf db uc y hy hty.1) hty.2

/-- Erasing the entry for a key spares the entries that are not `equalTo` the
key. -/
theorem Spares.spare_erase (H : String → Nat) (k : Obj BaseTerm) :
    Spares (fun y => BaseTerm.equalTo k.node y)
      (fun db uc => (⟨unordered_set.erase (termKeys H) db._terms k⟩, uc)) := by
  intro db uc y hy hty
  have hk : ¬ unordered_set.hit (termKeys H) k y = true := by
    intro h
    have := (unordered_set.hit_iff (termKeys_lawful H) k y).mp h
    have hty2 : BaseTerm.equalTo k.node y.node = false := hty
    simp only [termKeys] at this
    rw [hty2] at this
    exact Bool.false_ne_true this
  exact (List.mem_eraseP_of_neg hk).mpr hy

/-- Releasing one handle spares what the deleter spares. -/
theorem Spares.spare_releaseWith (H : String → Nat) (o : BaseTerm) {touch : BaseTerm → Bool}
    (deleter : Nat → TermDatabase → UseCount → TermDatabase × UseCount)
    (hd : ∀ s, Spares touch (deleter s)) :
    Spares touch (TermDatabase.releaseWith H o deleter) := by
  intro db uc y hy hty
  unfold TermDatabase.releaseWith
  cases db.pointee H o with
  | none => exact hy
  | some p =>
    simp only
    split
    · exact hd p.serial db _ y hy hty
    · exact hy

mutual
/-- Fact: `removeTerm` on an object with a given tree spares every entry whose
tree is not a subterm of that tree. -/
theorem removeNode_spares (H : String → Nat) : ∀ (t : BaseTerm) (s : Nat),
    Spares (fun y => BaseTerm.subtermOf y t) (removeNode H s t)
  | .VariableTerm v, s => by
    have h := Spares.spare_erase H ⟨s, .VariableTerm v⟩
    intro db uc y hy hty
    rw [removeNode]
    simp only [BaseTerm.subtermOf] at hty
    exact h db uc y hy hty
  | .FunctionTerm f ops, s => by
    have h := (Spares.spare_erase H ⟨s, .FunctionTerm f ops⟩).spare_comp (releaseAll_spares H ops)
    intro db uc y hy hty
    rw [removeNode]
    simp only [BaseTerm.subtermOf] at hty
    exact h db uc y hy hty
/-- The destructor of a vector of handles spares every entry whose tree is not
a subterm of one of the operands. -/
theorem releaseAll_spares (H : String → Nat) : ∀ ops : List BaseTerm,
    Spares (fun y => BaseTerm.subtermOfAny y ops) (releaseAll H ops)
  | [] => by
    intro db uc y hy _
    rw [releaseAll]
    exact hy
  | o :: rest => by
    have h1 := Spares.spare_releaseWith H o (fun s db uc => removeNode H s o db uc)
      (fun s => removeNode_spares H o s)
    have h := h1.spare_comp (releaseAll_spares H rest)
    intro db uc y hy hty
    rw [releaseAll]
    simp only [BaseTerm.subtermOfAny] at hty
    exact h db uc y hy hty
end

end TermDatabase

namespace FormulaDatabase

/-- Doing nothing spares every entry. -/
theorem Spares.spare_skip_pools : Spares (fun _ => false) (fun _ => false) (fun st => st) :=
  fun _ => ⟨fun _ hy _ => hy, fun _ hy _ => hy⟩

end FormulaDatabase

/-! ## `addTerm`, `addFormula` and the two outcomes of the lookup -/

namespace TermDatabase

/-- Fact: `addTerm` when the lookup succeeds. -/
theorem addTerm_of_find_some (H : String → Nat) {db : TermDatabase} {t it : Obj BaseTerm}
    (h : unordered_set.find (termKeys H) db._terms t = some it) :
    db.addTerm H t = (it, db) := by
  simp [addTerm, h]

/-- Fact: `addTerm` when the lookup fails. -/
theorem addTerm_of_find_none (H : String → Nat) {db : TermDatabase} {t : Obj BaseTerm}
    (h : unordered_set.find (termKeys H) db._terms t = none) :
    db.addTerm H t = (t, ⟨t :: db._terms⟩) := by
  simp [addTerm, h, unordered_set.insert_of_find_none h]

/-- Fact: `addTerm` keeps the registry canonical. -/
theorem addTerm_canonical (H : String → Nat) {db : TermDatabase} (t : Obj BaseTerm)
    (hc : db.Canonical) : (db.addTerm H t).2.Canonical := by
  cases h : unordered_set.find (termKeys H) db._terms t with
  | some e => rw [addTerm_of_find_some H h]; exact hc
  | none =>
    rw [addTerm_of_find_none H h, ← unordered_set.insert_of_find_none h]
    exact unordered_set.insert_canonical (termKeys_lawful H) t hc

/-- Fact: `removeTerm` leaves a part of what the erasure of its argument
leaves. -/
theorem removeTerm_sublist (H : String → Nat) (db : TermDatabase) (uc : UseCount)
    (e : Obj BaseTerm) :
    (db.removeTerm H uc e).1._terms.Sublist (unordered_set.erase (termKeys H) db._terms e) := by
  obtain ⟨s, node⟩ := e
  cases node with
  | VariableTerm v =>
    rw [removeTerm, removeNode]
  | FunctionTerm f ops =>
    rw [removeTerm, removeNode]
    exact (releaseAll_releases H ops _ _).1

/-- Fact: `removeTerm` keeps the registry canonical. -/
theorem removeTerm_canonical (H : String → Nat) {db : TermDatabase} (uc : UseCount)
    (t : Obj BaseTerm) (hc : db.Canonical) : (db.removeTerm H uc t).1.Canonical :=
  hc.of_sublist ((removeTerm_sublist H db uc t).trans (List.eraseP_sublist _))

/-- A use count that is zero is zero after `removeTerm`. -/
theorem removeTerm_zero (H : String → Nat) (db : TermDatabase) (uc : UseCount)
    (e : Obj BaseTerm) (x : Nat) (hx : uc x = 0) : (db.removeTerm H uc e).2 x = 0 :=
  (removeNode_releases H e.node e.serial db uc).2.1 x hx

/-- Releasing a handle that is not the last leaves the registry alone. -/
theorem release_of_shared (H : String → Nat) (db : TermDatabase) {uc : UseCount}
    {e : Obj BaseTerm} (h1 : 1 < uc e.serial) :
    db.release H uc e = (db, uc.drop e.serial) := by
  have hz : uc.drop e.serial e.serial ≠ 0 := by
    simp only [UseCount.drop, if_true]
    omega
  simp only [release, hz, if_false]

/-- Releasing a handle keeps the registry canonical. -/
theorem release_canonical (H : String → Nat) {db : TermDatabase} (uc : UseCount)
    (h : Obj BaseTerm) (hc : db.Canonical) : (db.release H uc h).1.Canonical := by
  unfold release
  simp only
  split
  · exact removeTerm_canonical H _ h hc
  · exact hc

end TermDatabase

namespace FormulaDatabase

/-- Fact: `addFormula` when the lookup succeeds. -/
theorem addFormula_of_find_some (H : String → Nat) {db : FormulaDatabase}
    {f it : Obj BaseFormula}
    (h : unordered_set.find (formulaKeys H) db._formulas f = some it) :
    db.addFormula H f = (it, db) := by
  simp [addFormula, h]

/-- Fact: `addFormula` when the lookup fails. -/
theorem addFormula_of_find_none (H : String → Nat) {db : FormulaDatabase}
    {f : Obj BaseFormula}
    (h : unordered_set.find (formulaKeys H) db._formulas f = none) :
    db.addFormula H f = (f, ⟨f :: db._formulas⟩) := by
  simp [addFormula, h, unordered_set.insert_of_find_none h]

/-- Fact: `addFormula` keeps the registry canonical. -/
theorem addFormula_canonical (H : String → Nat) {db : FormulaDatabase} (f : Obj BaseFormula)
    (hc : db.Canonical) : (db.addFormula H f).2.Canonical := by
  cases h : unordered_set.find (formulaKeys H) db._formulas f with
  | some e => rw [addFormula_of_find_some H h]; exact hc
  | none =>
    rw [addFormula_of_find_none H h, ← unordered_set.insert_of_find_none h]
    exact unordered_set.insert_canonical (formulaKeys_lawful H) f hc

/-- Fact: `removeFormula` is a destruction step that erases outright only its
argument. -/
theorem removeFormula_releases (H : String → Nat) (db : FormulaDatabase)
    (tdb : TermDatabase) (uc : UseCount) (g : Obj BaseFormula) :
    (db.removeFormula H tdb uc g).formulas._formulas.Sublist db._formulas
    ∧ (db.removeFormula H tdb uc g).terms._terms.Sublist tdb._terms
    ∧ (∀ x, uc x = 0 → (db.removeFormula H tdb uc g).use_count x = 0)
    ∧ (db.Canonical → ∀ y ∈ db._formulas,
        y ∈ (db.removeFormula H tdb uc g).formulas._formulas
          ∨ (db.removeFormula H tdb uc g).use_count y.serial = 0
          ∨ unordered_set.hit (formulaKeys H) g y = true)
    ∧ (tdb.Canonical → ∀ y ∈ tdb._terms,
        y ∈ (db.removeFormula H tdb uc g).terms._terms
          ∨ (db.removeFormula H tdb uc g).use_count y.serial = 0) :=
  removeNode_releases_pools H g.node g.serial ⟨db, tdb, uc⟩

/-- Fact: `removeFormula` keeps both registries canonical. -/
theorem removeFormula_canonical (H : String → Nat) {db : FormulaDatabase}
    {tdb : TermDatabase} (uc : UseCount) (f : Obj BaseFormula)
    (hc : db.Canonical) (ht : tdb.Canonical) :
    (db.removeFormula H tdb uc f).formulas.Canonical
      ∧ (db.removeFormula H tdb uc f).terms.Canonical :=
  ⟨hc.of_sublist_formulas (removeFormula_releases H db tdb uc f).1,
    ht.of_sublist (removeFormula_releases H db tdb uc f).2.1⟩

/-- Releasing a handle keeps both registries canonical. -/
theorem release_canonical_formula (H : String → Nat) {db : FormulaDatabase}
    {tdb : TermDatabase} (uc : UseCount) (h : Obj BaseFormula)
    (hc : db.Canonical) (ht : tdb.Canonical) :
    (db.release H tdb uc h).formulas.Canonical ∧ (db.release H tdb uc h).terms.Canonical := by
  unfold release
  simp only
  split
  · exact removeFormula_canonical H _ h hc ht
  · exact ⟨hc, ht⟩

end FormulaDatabase

namespace TermDatabase

/-- After `addTerm` on an object made by `new` every registered object was
allocated before the next `new`. -/
theorem addTerm_new_allocated (H : String → Nat) {db : TermDatabase} {hp : Heap}
    (hh : ∀ x ∈ db._terms, x.serial < hp.allocated) (node : BaseTerm) :
    ∀ x ∈ (db.addTerm H (hp.new node).1).2._terms, x.serial < (hp.new node).2.allocated := by
  have hlt : ∀ x ∈ db._terms, x.serial < hp.allocated + 1 :=
    fun x hx => Nat.lt_succ_of_lt (hh x hx)
  cases h : unordered_set.find (termKeys H) db._terms (hp.new node).1 with
  | some it =>
    rw [addTerm_of_find_some H h]
    exact hlt
  | none =>
    rw [addTerm_of_find_none H h]
    intro x hx
    rcases List.mem_cons.mp hx with rfl | hx
    · simp [Heap.new]
    · exact hlt x hx

end TermDatabase

namespace FormulaDatabase

/-- The handle `addFormula` returns is registered afterwards. -/
theorem addFormula_mem (H : String → Nat) (db : FormulaDatabase) (f : Obj BaseFormula) :
    (db.addFormula H f).1 ∈ (db.addFormula H f).2._formulas := by
  cases h : unordered_set.find (formulaKeys H) db._formulas f with
  | some e =>
    rw [addFormula_of_find_some H h]
    exact (unordered_set.find_some (formulaKeys_lawful H) h).1
  | none =>
    rw [addFormula_of_find_none H h]
    exact List.mem_cons_self _ _

/-- The object `addFormula` returns is the candidate or a registered entry, and
is `equalTo` the candidate. -/
theorem addFormula_node (H : String → Nat) (db : FormulaDatabase) (f : Obj BaseFormula) :
    ((db.addFormula H f).1 = f ∨ (db.addFormula H f).1 ∈ db._formulas)
      ∧ BaseFormula.equalTo f.node (db.addFormula H f).1.node = true := by
  cases h : unordered_set.find (formulaKeys H) db._formulas f with
  | some e =>
    rw [addFormula_of_find_some H h]
    exact ⟨Or.inr (unordered_set.find_some (formulaKeys_lawful H) h).1,
      (unordered_set.find_some (formulaKeys_lawful H) h).2⟩
  | none =>
    rw [addFormula_of_find_none H h]
    exact ⟨Or.inl rfl, BaseFormula.equalTo_self _⟩

/-- After a `make*` call every registered object was allocated before the next
`new`. -/
theorem make_allocated (H : String → Nat) {db : FormulaDatabase} {hp : Heap}
    (hh : ∀ x ∈ db._formulas, x.serial < hp.allocated) (node : BaseFormula) :
    ∀ x ∈ (db.make H hp node).2.1._formulas, x.serial < (db.make H hp node).2.2.allocated := by
  have hlt : ∀ x ∈ db._formulas, x.serial < hp.allocated + 1 :=
    fun x hx => Nat.lt_succ_of_lt (hh x hx)
  show ∀ x ∈ (db.addFormula H (hp.new node).1).2._formulas, x.serial < hp.allocated + 1
  cases h : unordered_set.find (formulaKeys H) db._formulas (hp.new node).1 with
  | some it =>
    rw [addFormula_of_find_some H h]
    exact hlt
  | none =>
    rw [addFormula_of_find_none H h]
    intro x hx
    rcases List.mem_cons.mp hx with rfl | hx
    · simp [Heap.new]
    · exact hlt x hx

end FormulaDatabase

/-! ## Interning: identity, uniqueness, eviction -/

/-- C2 (canonical uniqueness). The empty registries are canonical, and from
canonical registries `addTerm`, every `make*` operation of the term pool,
`removeTerm` and the release of a handle lead to a canonical registry;
likewise `addFormula`, every `make*` operation of the formula pool,
`removeFormula` and the release of a handle, the last two for the term
registry as well, which they reach through the operands of atoms. -/
theorem canonical_uniqueness (H : String → Nat) (tdb : TermDatabase) (fdb : FormulaDatabase)
    (ht : tdb.Canonical) (hf : fdb.Canonical) :
    (TermDatabase.empty.Canonical
      ∧ (∀ t, (tdb.addTerm H t).2.Canonical)
      ∧ (∀ uc t, (tdb.removeTerm H uc t).1.Canonical)
      ∧ (∀ uc h, (tdb.release H uc h).1.Canonical)
      ∧ (∀ hp v, (tdb.makeVariableTerm H hp v).2.1.Canonical)
      ∧ (∀ hp f ops, (tdb.makeFunctionTerm H hp f ops).2.1.Canonical))
    ∧ (FormulaDatabase.empty.Canonical
      ∧ (∀ f, (fdb.addFormula H f).2.Canonical)
      ∧ (∀ uc f, (fdb.removeFormula H tdb uc f).formulas.Canonical
          ∧ (fdb.removeFormula H tdb uc f).terms.Canonical)
      ∧ (∀ uc h, (fdb.release H tdb uc h).formulas.Canonical
          ∧ (fdb.release H tdb uc h).terms.Canonical)
      ∧ (∀ hp, (fdb.makeTrue H hp).2.1.Canonical)
      ∧ (∀ hp, (fdb.makeFalse H hp).2.1.Canonical)
      ∧ (∀ hp p ops, (fdb.makeAtom H hp p ops).2.1.Canonical)
      ∧ (∀ hp l r, (fdb.makeEquality H hp l r).2.1.Canonical)
      ∧ (∀ hp l r, (fdb.makeDisequality H hp l r).2.1.Canonical)
      ∧ (∀ hp f, (fdb.makeNot H hp f).2.1.Canonical)
      ∧ (∀ hp l r, (fdb.makeAnd H hp l r).2.1.Canonical)
      ∧ (∀ hp l r, (fdb.makeOr H hp l r).2.1.Canonical)
      ∧ (∀ hp l r, (fdb.makeImp H hp l r).2.1.Canonical)
      ∧ (∀ hp l r, (fdb.makeIff H hp l r).2.1.Canonical)
      ∧ (∀ hp v f, (fdb.makeForall H hp v f).2.1.Canonical)
      ∧ (∀ hp v f, (fdb.makeExists H hp v f).2.1.Canonical)) := by
  have hm : ∀ hp node, (fdb.make H hp node).2.1.Canonical :=
    fun hp node => FormulaDatabase.addFormula_canonical H _ hf
  refine ⟨⟨List.Pairwise.nil, fun t => TermDatabase.addTerm_canonical H t ht,
      fun uc t => TermDatabase.removeTerm_canonical H uc t ht,
      fun uc h => TermDatabase.release_canonical H uc h ht,
      fun hp v => TermDatabase.addTerm_canonical H _ ht,
      fun hp f ops => TermDatabase.addTerm_canonical H _ ht⟩,
    ⟨List.Pairwise.nil, fun f => FormulaDatabase.addFormula_canonical H f hf,
      fun uc f => FormulaDatabase.removeFormula_canonical H uc f hf ht,
      fun uc h => FormulaDatabase.release_canonical_formula H uc h hf ht, ?_⟩⟩
  exact ⟨fun hp => hm hp _, fun hp => hm hp _, fun hp _ _ => hm hp _,
    fun hp _ _ => hm hp _, fun hp _ _ => hm hp _, fun hp _ => hm hp _,
    fun hp _ _ => hm hp _, fun hp _ _ => hm hp _, fun hp _ _ => hm hp _,
    fun hp _ _ => hm hp _, fun hp _ _ => hm hp _, fun hp _ _ => hm hp _⟩

/-- C2 at the sample registries: both are canonical, and stay so when `f(x)` is
requested again and when the last handle to `~P(x)` is released, which evicts
`~P(x)` and `P(x)`. -/
theorem canonical_uniqueness_witness :
    (Sample.tdb.Canonical ∧ Sample.fdb.Canonical)
    ∧ (Sample.tdb.makeFunctionTerm Sample.H ⟨9⟩ "f" [⟨0, Sample.x⟩]).2.1.Canonical
    ∧ (Sample.fdb.release Sample.H Sample.tdb Sample.uc ⟨3, .Not_ Sample.Px⟩).formulas.Canonical :=
  have ht : Sample.tdb.Canonical := by
    unfold TermDatabase.Canonical; decide
  have hf : Sample.fdb.Canonical := by
    unfold FormulaDatabase.Canonical; decide
  have h := canonical_uniqueness Sample.H Sample.tdb Sample.fdb ht hf
  ⟨⟨ht, hf⟩, h.1.2.2.2.2.2 ⟨9⟩ "f" [⟨0, Sample.x⟩],
    (h.2.2.2.2.1 Sample.uc ⟨3, .Not_ Sample.Px⟩).1⟩

namespace BaseTerm

mutual
/-- A term's hash code fits an `unsigned long`. -/
theorem hashCode_lt (H : String → Nat) : ∀ t : BaseTerm, hashCode H t < WORD
  | VariableTerm v => by
    rw [hashCode]
    exact Nat.mod_lt _ (by decide)
  | FunctionTerm f ops => by
    rw [hashCode]
    exact hashCodeLoop_lt H ops _ (Nat.mod_lt _ (by decide))
/-- The accumulator of the hash loop stays within an `unsigned long`. -/
theorem hashCodeLoop_lt (H : String → Nat) :
    ∀ (ops : List BaseTerm) (h : Nat), h < WORD → hashCodeLoop H h ops < WORD
  | [], h, hh => by
    rw [hashCodeLoop]
    exact hh
  | o :: ops, h, hh => by
    rw [hashCodeLoop]
    exact hashCodeLoop_lt H ops _ (Nat.xor_lt_two_pow hh (hashCode_lt H o))
end

end BaseTerm

/-- A formula's hash code fits an `unsigned long`. -/
theorem BaseFormula.hashCode_lt_word (H : String → Nat) (f : BaseFormula) :
    BaseFormula.hashCode H f < WORD := by
  have hm : ∀ n : Nat, n % WORD < WORD := fun n => Nat.mod_lt _ (by decide)
  have hx : ∀ {a b : Nat}, a < WORD → b < WORD → a ^^^ b < WORD :=
    fun ha hb => Nat.xor_lt_two_pow ha hb
  induction f with
  | True_ => exact hm _
  | False_ => exact hm _
  | Atom p ops => exact BaseTerm.hashCodeLoop_lt H ops _ (hm _)
  | Equality l r => exact BaseTerm.hashCodeLoop_lt H _ _ (hm _)
  | Disequality l r => exact BaseTerm.hashCodeLoop_lt H _ _ (hm _)
  | Not_ op ih => exact hx (hm _) ih
  | And_ op1 op2 ih1 ih2 => exact hx (hx (hm _) ih1) ih2
  | Or_ op1 op2 ih1 ih2 => exact hx (hx (hm _) ih1) ih2
  | Imp op1 op2 ih1 ih2 => exact hx (hx (hm _) ih1) ih2
  | Iff_ op1 op2 ih1 ih2 => exact hx (hx (hm _) ih1) ih2
  | Forall v op ih => exact hx (hx (hm _) ih) (hm _)
  | Exists_ v op ih => exact hx (hx (hm _) ih) (hm _)

/-! ## Hash/equality consistency -/

/-- C4 (hash/equality consistency for terms). For every string hash `H` and
all terms `a`, `b`: if `a.equalTo(b)` is true then `a.hashCode()` equals
`b.hashCode()`; both are 64-bit words. -/
theorem term_hash_consistent (H : String → Nat) (a b : BaseTerm)
    (h : BaseTerm.equalTo a b = true) :
    BaseTerm.hashCode H a = BaseTerm.hashCode H b
      ∧ BaseTerm.hashCode H a < 2 ^ 64 ∧ BaseTerm.hashCode H b < 2 ^ 64 :=
  ⟨BaseTerm.hashCode_congr H h, BaseTerm.hashCode_lt H a, BaseTerm.hashCode_lt H b⟩

/-- C4 at two copies of `g(f(x), y)`. -/
theorem term_hash_consistent_witness :
    BaseTerm.equalTo (.FunctionTerm "g" [Sample.fx, Sample.y])
        (.FunctionTerm "g" [Sample.fx, Sample.y]) = true
    ∧ BaseTerm.hashCode Sample.H (.FunctionTerm "g" [Sample.fx, Sample.y])
        = BaseTerm.hashCode Sample.H (.FunctionTerm "g" [Sample.fx, Sample.y]) :=
  ⟨by decide, (term_hash_consistent Sample.H _ _ (by decide)).1⟩

/-- C5 (hash/equality consistency for formulas). For every string hash `H` and
all formulas `a`, `b` of any of the twelve classes: if `a.equalTo(b)` is true
then `a.hashCode()` equals `b.hashCode()`; both are 64-bit words. An `Equality`
or `Disequality` object compared with an `Atom` object is one of the cases. -/
theorem formula_hash_consistent (H : String → Nat) (a b : BaseFormula)
    (h : BaseFormula.equalTo a b = true) :
    BaseFormula.hashCode H a = BaseFormula.hashCode H b
      ∧ BaseFormula.hashCode H a < 2 ^ 64 ∧ BaseFormula.hashCode H b < 2 ^ 64 :=
  ⟨BaseFormula.hashCode_eq_of_equalTo H h, BaseFormula.hashCode_lt_word H a,
    BaseFormula.hashCode_lt_word H b⟩

/-- C5 at `!v . x = y` built once with an `Equality` node and once with the
`Atom` carrying the symbol `=`. -/
theorem formula_hash_consistent_witness :
    BaseFormula.equalTo (.Forall "v" (.Equality Sample.x Sample.y))
        (.Forall "v" (.Atom "=" [Sample.x, Sample.y])) = true
    ∧ BaseFormula.hashCode Sample.H (.Forall "v" (.Equality Sample.x Sample.y))
        = BaseFormula.hashCode Sample.H (.Forall "v" (.Atom "=" [Sample.x, Sample.y])) :=
  ⟨by decide, (formula_hash_consistent Sample.H _ _ (by decide)).1⟩

/-! ## What structural equality decides -/

/-- Two operand lists are equal exactly when they have the same size and
`equalTo` holds at every index. -/
theorem BaseTerm.ops_eq_iff (ops tops : List BaseTerm) :
    ops = tops ↔ ops.length = tops.length
      ∧ ∀ (i : Nat) (h1 : i < ops.length) (h2 : i < tops.length),
          BaseTerm.equalTo (ops.get ⟨i, h1⟩) (tops.get ⟨i, h2⟩) = true := by
  constructor
  · intro h
    subst h
    exact ⟨rfl, fun i h1 _ => BaseTerm.equalTo_refl _⟩
  · intro h
    apply List.ext_get h.1
    intro i h1 h2
    exact (BaseTerm.equalTo_iff_eq _ _).mp (h.2 i h1 h2)

/-- C6 (term structural equality). `a.equalTo(b)` is true exactly when `a` and
`b` are the same tree: two variables are equal exactly when their names are,
two functions exactly when they have the same symbol, the same number of
operands and `equalTo` operands at every index, and a variable is never equal
to a function; so different names, and different function symbols whatever the
operands, give unequal terms. -/
theorem term_structural_equality :
    (∀ a b : BaseTerm, BaseTerm.equalTo a b = true ↔ a = b)
    ∧ (∀ n m : Variable,
        BaseTerm.equalTo (.VariableTerm n) (.VariableTerm m) = true ↔ n = m)
    ∧ (∀ (f g : FunctionSymbol) (ops tops : List BaseTerm),
        BaseTerm.equalTo (.FunctionTerm f ops) (.FunctionTerm g tops) = true ↔
          f = g ∧ ops.length = tops.length
            ∧ ∀ (i : Nat) (h1 : i < ops.length) (h2 : i < tops.length),
                BaseTerm.equalTo (ops.get ⟨i, h1⟩) (tops.get ⟨i, h2⟩) = true)
    ∧ (∀ (n : Variable) (f : FunctionSymbol) (ops : List BaseTerm),
        BaseTerm.equalTo (.VariableTerm n) (.FunctionTerm f ops) = false
          ∧ BaseTerm.equalTo (.FunctionTerm f ops) (.VariableTerm n) = false)
    ∧ (∀ n m : Variable, n ≠ m →
        BaseTerm.equalTo (.VariableTerm n) (.VariableTerm m) = false)
    ∧ (∀ (f g : FunctionSymbol) (ops tops : List BaseTerm), f ≠ g →
        BaseTerm.equalTo (.FunctionTerm f ops) (.FunctionTerm g tops) = false) := by
  refine ⟨BaseTerm.equalTo_iff_eq, ?_, ?_, ?_, ?_, ?_⟩
  · intro n m
    rw [BaseTerm.equalTo_iff_eq, BaseTerm.VariableTerm.injEq]
  · intro f g ops tops
    rw [BaseTerm.equalTo_iff_eq, BaseTerm.FunctionTerm.injEq, BaseTerm.ops_eq_iff]
  · intro n f ops
    exact ⟨rfl, rfl⟩
  · intro n m hnm
    rw [← Bool.not_eq_true, BaseTerm.equalTo_iff_eq, BaseTerm.VariableTerm.injEq]
    exact hnm
  · intro f g ops tops hfg
    rw [← Bool.not_eq_true, BaseTerm.equalTo_iff_eq, BaseTerm.FunctionTerm.injEq]
    exact fun h => hfg h.1

/-- C7, as stated, fails: an `Equality` object and the `Atom` object with the
symbol `=` and the same two operands are `equalTo` each other in both
directions, yet they are different variants of the data model. -/
theorem formula_structural_equality_counterexample :
    BaseFormula.equalTo (.Equality Sample.x Sample.y) (.Atom "=" [Sample.x, Sample.y]) = true
    ∧ BaseFormula.equalTo (.Atom "=" [Sample.x, Sample.y]) (.Equality Sample.x Sample.y) = true
    ∧ BaseFormula.Equality Sample.x Sample.y ≠ BaseFormula.Atom "=" [Sample.x, Sample.y] :=
  ⟨by decide, by decide, fun h => BaseFormula.noConfusion h⟩

/-- C7, amended. `a.equalTo(b)` is true exactly when `a` and `b` are the same
tree once every `Equality(l, r)` node is read as `Atom("=", [l, r])` and every
`Disequality(l, r)` node as `Atom("~=", [l, r])`; equal formulas have the same
`getType()` tag, connectives compare their operands in order, and quantifiers
compare the bound-variable string exactly and then the bodies. -/
theorem formula_structural_equality :
    (∀ a b : BaseFormula, BaseFormula.equalTo a b = true ↔ a.asAtom = b.asAtom)
    ∧ (∀ a b : BaseFormula, BaseFormula.equalTo a b = true → a.getType = b.getType)
    ∧ (∀ (p q : PredicateSymbol) (ops tops : List BaseTerm),
        BaseFormula.equalTo (.Atom p ops) (.Atom q tops) = true ↔ p = q ∧ ops = tops)
    ∧ (∀ l r l2 r2 : BaseTerm,
        (BaseFormula.equalTo (.Equality l r) (.Equality l2 r2) = true ↔ l = l2 ∧ r = r2)
        ∧ (BaseFormula.equalTo (.Disequality l r) (.Disequality l2 r2) = true ↔
            l = l2 ∧ r = r2)
        ∧ BaseFormula.equalTo (.Equality l r) (.Disequality l2 r2) = false)
    ∧ (∀ a b : BaseFormula,
        BaseFormula.equalTo (.Not_ a) (.Not_ b) = BaseFormula.equalTo a b)
    ∧ (∀ a1 a2 b1 b2 : BaseFormula,
        BaseFormula.equalTo (.And_ a1 a2) (.And_ b1 b2)
            = (BaseFormula.equalTo a1 b1 && BaseFormula.equalTo a2 b2)
        ∧ BaseFormula.equalTo (.Or_ a1 a2) (.Or_ b1 b2)
            = (BaseFormula.equalTo a1 b1 && BaseFormula.equalTo a2 b2)
        ∧ BaseFormula.equalTo (.Imp a1 a2) (.Imp b1 b2)
            = (BaseFormula.equalTo a1 b1 && BaseFormula.equalTo a2 b2)
        ∧ BaseFormula.equalTo (.Iff_ a1 a2) (.Iff_ b1 b2)
            = (BaseFormula.equalTo a1 b1 && BaseFormula.equalTo a2 b2))
    ∧ (∀ (v w : Variable) (a b : BaseFormula),
        (BaseFormula.equalTo (.Forall v a) (.Forall w b) = true ↔
            v = w ∧ BaseFormula.equalTo a b = true)
        ∧ (BaseFormula.equalTo (.Exists_ v a) (.Exists_ w b) = true ↔
            v = w ∧ BaseFormula.equalTo a b = true)
        ∧ BaseFormula.equalTo (.Forall v a) (.Exists_ w b) = false) := by
  refine ⟨BaseFormula.equalTo_iff_asAtom_eq, ?_, ?_, ?_, ?_, ?_, ?_⟩
  · intro a b h
    have h2 := (BaseFormula.equalTo_iff_asAtom_eq a b).mp h
    have ht : ∀ c : BaseFormula, c.asAtom.getType = c.getType := by
      intro c
      cases c <;> rfl
    rw [← ht a, ← ht b, h2]
  · intro p q ops tops
    rw [BaseFormula.equalTo_iff_asAtom_eq]
    simp [BaseFormula.asAtom]
  · intro l r l2 r2
    refine ⟨?_, ?_, ?_⟩
    · rw [BaseFormula.equalTo_iff_asAtom_eq]
      simp [BaseFormula.asAtom]
    · rw [BaseFormula.equalTo_iff_asAtom_eq]
      simp [BaseFormula.asAtom]
    · rw [← Bool.not_eq_true, BaseFormula.equalTo_iff_asAtom_eq]
      simp [BaseFormula.asAtom]
  · intro a b
    rfl
  · intro a1 a2 b1 b2
    exact ⟨rfl, rfl, rfl, rfl⟩
  · intro v w a b
    refine ⟨?_, ?_, rfl⟩
    · simp only [BaseFormula.equalTo, Bool.and_eq_true, beq_iff_eq]
      constructor <;> rintro ⟨h1, h2⟩ <;> exact ⟨h1.symm, h2⟩
    · simp only [BaseFormula.equalTo, Bool.and_eq_true, beq_iff_eq]
      constructor <;> rintro ⟨h1, h2⟩ <;> exact ⟨h1.symm, h2⟩

/-! ## Printing only appends -/

namespace Output

/-- The stream written to holds its old text followed by the new text. -/
theorem put_same (w : Output) (o : ostream) (s : String) : (w.put o s) o = w o ++ s := by
  simp [put]

/-- Every other stream is untouched. -/
theorem put_other (w : Output) {o x : ostream} (s : String) (h : x ≠ o) :
    (w.put o s) x = w x := by
  simp [put, h]

/-- Two writes to a stream are one write of the concatenation. -/
theorem put_put (w : Output) (o : ostream) (a b : String) :
    (w.put o a).put o b = w.put o (a ++ b) := by
  funext x
  by_cases h : x = o <;> simp [put, h, String.append_assoc]

/-- Writing the empty string changes nothing. -/
theorem put_nil (w : Output) (o : ostream) : w.put o "" = w := by
  funext x
  by_cases h : x = o <;> simp [put, h]

end Output

namespace Appends

/-- Fact: `ostr << s` only appends. -/
theorem put (o : ostream) (s : String) : Appends (fun w => w.put o s) :=
  ⟨Output.empty.put o s, fun w => by
    funext x
    by_cases h : x = o <;> simp [Output.put, Output.empty, h]⟩

/-- Doing nothing only appends. -/
theorem skip : Appends (fun w => w) :=
  ⟨Output.empty, fun w => by
    funext x
    simp [Output.empty]⟩

/-- A guarded `ostr << s` only appends. -/
theorem putIf (c : Bool) (o : ostream) (s : String) :
    Appends (fun w => if c then w.put o s else w) := by
  cases c
  · exact skip
  · exact put o s

/-- Two steps in sequence only append. -/
theorem comp {p q : Output → Output} (hp : Appends p) (hq : Appends q) :
    Appends (fun w => q (p w)) := by
  obtain ⟨d1, h1⟩ := hp
  obtain ⟨d2, h2⟩ := hq
  refine ⟨fun x => d1 x ++ d2 x, fun w => ?_⟩
  show q (p w) = _
  rw [h1, h2]
  funext x
  exact String.append_assoc _ _ _

/-- What an appending step adds to a stream can be read off a run on empty
streams. -/
theorem apply {p : Output → Output} (hp : Appends p) (w : Output) (x : ostream) :
    p w x = w x ++ p Output.empty x := by
  obtain ⟨d, h⟩ := hp
  rw [h w, h Output.empty]
  simp [Output.empty]

end Appends

namespace BaseTerm

mutual
/-- Printing a term writes one fixed text to the stream it is handed. -/
theorem printTerm_exists : ∀ t : BaseTerm,
    ∃ s : String, ∀ (o : ostream) (w : Output), printTerm t o w = w.put o s
  | VariableTerm v => ⟨v, fun o w => by rw [printTerm]⟩
  | FunctionTerm f ops => by
    obtain ⟨s, hs⟩ := printLoop_exists ops ops.length 0
    exact ⟨f ++ s, fun o w => by rw [printTerm, hs, Output.put_put]⟩
/-- The operand loop writes one fixed text to the stream it is handed. -/
theorem printLoop_exists : ∀ (ops : List BaseTerm) (size i : Nat),
    ∃ s : String, ∀ (o : ostream) (w : Output), printLoop size i ops o w = w.put o s
  | [], size, i => ⟨"", fun o w => by rw [printLoop, Output.put_nil]⟩
  | t :: rest, size, i => by
    obtain ⟨s1, h1⟩ := printTerm_exists t
    obtain ⟨s2, h2⟩ := printLoop_exists rest size (i + 1)
    refine ⟨(if i == 0 then "(" else "") ++ s1
      ++ (if i != size - 1 then "," else ")") ++ s2, fun o w => ?_⟩
    rw [printLoop]
    simp only [h1, h2]
    by_cases hi : (i == 0) = true <;> by_cases hn : (i != size - 1) = true <;>
      simp [hi, hn, Output.put_put, String.append_assoc]
end

/-- Printing a term appends its text to the stream it is handed. -/
theorem printTerm_eq (t : BaseTerm) (o : ostream) (w : Output) :
    printTerm t o w = w.put o t.str := by
  obtain ⟨s, hs⟩ := printTerm_exists t
  have : t.str = s := by
    rw [str, hs]
    simp [Output.put, Output.empty]
  rw [this, hs]

/-- The operand loop appends one fixed text to the stream it is handed. -/
theorem printLoop_appends (ops : List BaseTerm) (size i : Nat) (o : ostream) :
    Appends (printLoop size i ops o) := by
  obtain ⟨s, hs⟩ := printLoop_exists ops size i
  obtain ⟨d, hd⟩ := Appends.put o s
  exact ⟨d, fun w => by rw [hs, ← hd]⟩

/-- Printing a term only appends. -/
theorem printTerm_appends (t : BaseTerm) (o : ostream) : Appends (printTerm t o) := by
  obtain ⟨d, hd⟩ := Appends.put o t.str
  exact ⟨d, fun w => by rw [printTerm_eq, ← hd]⟩

end BaseTerm

namespace BaseFormula

/-- Printing a formula only appends, to the stream handed in and to `cout`. -/
theorem printFormula_appends (f : BaseFormula) (o : ostream) :
    Appends (printFormula f o) := by
  induction f with
  | True_ => exact Appends.put o "true"
  | False_ => exact Appends.put o "false"
  | Atom p ops =>
    exact (Appends.put o p).comp (BaseTerm.printLoop_appends ops ops.length 0 o)
  | Equality l r =>
    exact ((BaseTerm.printTerm_appends l o).comp (Appends.put o " = ")).comp
      (BaseTerm.printTerm_appends r o)
  | Disequality l r =>
    exact ((BaseTerm.printTerm_appends l o).comp (Appends.put o " ~= ")).comp
      (BaseTerm.printTerm_appends r o)
  | Not_ op ih =>
    exact (((Appends.put o "~").comp (Appends.putIf _ o "(")).comp ih).comp
      (Appends.putIf _ o ")")
  | And_ op1 op2 ih1 ih2 =>
    exact ((((((Appends.putIf _ o "(").comp ih1).comp (Appends.putIf _ o ")")).comp
      (Appends.put o " & ")).comp (Appends.putIf _ o "(")).comp ih2).comp
      (Appends.putIf _ o ")")
  | Or_ op1 op2 ih1 ih2 =>
    exact ((((((Appends.putIf _ o "(").comp ih1).comp (Appends.putIf _ o ")")).comp
      (Appends.put o " | ")).comp (Appends.putIf _ o "(")).comp ih2).comp
      (Appends.putIf _ o ")")
  | Imp op1 op2 ih1 ih2 =>
    exact ((((((Appends.putIf _ o "(").comp ih1).comp (Appends.putIf _ o ")")).comp
      (Appends.put o " => ")).comp (Appends.putIf _ o "(")).comp ih2).comp
      (Appends.putIf _ o ")")
  | Iff_ op1 op2 ih1 ih2 =>
    exact ((((((Appends.putIf _ o "(").comp ih1).comp (Appends.putIf _ o ")")).comp
      (Appends.put o " <=> ")).comp (Appends.putIf _ o "(")).comp ih2).comp
      (Appends.putIf _ o ")")
  | Forall v op ih =>
    exact (((Appends.put .cout "!").comp (Appends.put .cout v)).comp
      (Appends.put .cout " . ")).comp ih
  | Exists_ v op ih =>
    exact (((Appends.put .cout "?").comp (Appends.put .cout v)).comp
      (Appends.put .cout " . ")).comp ih

/-- What printing a formula adds to any stream does not depend on what the
streams held before. -/
theorem printFormula_apply (f : BaseFormula) (o : ostream) (w : Output) (x : ostream) :
    printFormula f o w x = w x ++ emitted f o x :=
  (printFormula_appends f o).apply w x

end BaseFormula

/-! ## Infix atoms through the factory -/

namespace BaseFormula

/-- A formula `equalTo` an `Equality` object is that `Equality` or the `Atom`
with the symbol `=` and the same operands. -/
theorem eq_of_equalTo_Equality {l r : BaseTerm} {f : BaseFormula}
    (h : equalTo (Equality l r) f = true) : f = Equality l r ∨ f = Atom "=" [l, r] := by
  have h2 := ((equalTo_iff_asAtom_eq _ _).mp h).symm
  cases f <;> simp [asAtom] at h2
  · right
    simp [h2]
  · left
    simp [h2]

/-- A formula `equalTo` a `Disequality` object is that `Disequality` or the
`Atom` with the symbol `~=` and the same operands. -/
theorem eq_of_equalTo_Disequality {l r : BaseTerm} {f : BaseFormula}
    (h : equalTo (Disequality l r) f = true) :
    f = Disequality l r ∨ f = Atom "~=" [l, r] := by
  have h2 := ((equalTo_iff_asAtom_eq _ _).mp h).symm
  cases f <;> simp [asAtom] at h2
  · right
    simp [h2]
  · left
    simp [h2]

/-- Fact: `Equality::printFormula` writes `left = right` to the stream handed in. -/
theorem printFormula_Equality (l r : BaseTerm) (o : ostream) (w : Output) :
    printFormula (Equality l r) o w = w.put o (l.str ++ " = " ++ r.str) := by
  simp only [printFormula, BaseTerm.printTerm_eq, Output.put_put]

/-- Fact: `Disequality::printFormula` writes `left ~= right` to the stream handed
in. -/
theorem printFormula_Disequality (l r : BaseTerm) (o : ostream) (w : Output) :
    printFormula (Disequality l r) o w = w.put o (l.str ++ " ~= " ++ r.str) := by
  simp only [printFormula, BaseTerm.printTerm_eq, Output.put_put]

end BaseFormula

/-- C8, as stated, fails: in the pool that holds the `Atom` made by
`makeAtom("=", {x, y})`, the handle `makeEquality(x, y)` returns is to that
`Atom`, which prints `=(x,y)` and not `x = y`; likewise `makeDisequality(x, y)`
after `makeAtom("~=", {x, y})` prints `~=(x,y)` and not `x ~= y`. -/
theorem make_equality_counterexample :
    (BaseFormula.printFormula
        (Sample.fdbEq.makeEquality Sample.H ⟨3⟩ ⟨0, Sample.x⟩ ⟨1, Sample.y⟩).1.node
        (.other 0) Output.empty (.other 0) = "=(x,y)"
      ∧ Sample.x.str ++ " = " ++ Sample.y.str = "x = y")
    ∧ (BaseFormula.printFormula
        (Sample.fdbNe.makeDisequality Sample.H ⟨3⟩ ⟨0, Sample.x⟩ ⟨1, Sample.y⟩).1.node
        (.other 0) Output.empty (.other 0) = "~=(x,y)"
      ∧ Sample.x.str ++ " ~= " ++ Sample.y.str = "x ~= y") :=
  ⟨⟨by decide, by decide⟩, ⟨by decide, by decide⟩⟩

/-- C8, amended. In every state of the formula pool that holds no plain `Atom`
with the symbol `=` and the operands `[l, r]`, the handle `makeEquality(l, r)`
returns is registered, is to an `Equality` object, and prints `print(l)`, then
` = `, then `print(r)` on the stream it is printed to; and, on its own, in
every state that holds no plain `Atom` with the symbol `~=` and the operands
`[l, r]`, the handle `makeDisequality(l, r)` returns is registered, is to a
`Disequality` object, and prints `print(l)`, then ` ~= `, then `print(r)`. -/
theorem make_equality_prints (H : String → Nat) (db : FormulaDatabase) (hp : Heap)
    (l r : Term) :
    ((∀ e ∈ db._formulas, e.node ≠ .Atom "=" [l.node, r.node]) →
      (db.makeEquality H hp l r).1 ∈ (db.makeEquality H hp l r).2.1._formulas
      ∧ (db.makeEquality H hp l r).1.node = .Equality l.node r.node
      ∧ ∀ (ostr : ostream) (w : Output),
          BaseFormula.printFormula (db.makeEquality H hp l r).1.node ostr w
            = w.put ostr (l.node.str ++ " = " ++ r.node.str))
    ∧ ((∀ e ∈ db._formulas, e.node ≠ .Atom "~=" [l.node, r.node]) →
      (db.makeDisequality H hp l r).1 ∈ (db.makeDisequality H hp l r).2.1._formulas
      ∧ (db.makeDisequality H hp l r).1.node = .Disequality l.node r.node
      ∧ ∀ (ostr : ostream) (w : Output),
          BaseFormula.printFormula (db.makeDisequality H hp l r).1.node ostr w
            = w.put ostr (l.node.str ++ " ~= " ++ r.node.str)) := by
  refine ⟨fun hEq => ?_, fun hNe => ?_⟩
  · have hE : (db.makeEquality H hp l r).1.node = .Equality l.node r.node := by
      obtain ⟨h1, h2⟩ := FormulaDatabase.addFormula_node H db
        ⟨hp.allocated, .Equality l.node r.node⟩
      rcases BaseFormula.eq_of_equalTo_Equality h2 with h | h
      · exact h
      · rcases h1 with h1 | h1
        · exact congrArg Obj.node h1
        · exact absurd h (hEq _ h1)
    refine ⟨FormulaDatabase.addFormula_mem H db _, hE, fun ostr w => ?_⟩
    rw [hE, BaseFormula.printFormula_Equality]
  · have hD : (db.makeDisequality H hp l r).1.node = .Disequality l.node r.node := by
      obtain ⟨h1, h2⟩ := FormulaDatabase.addFormula_node H db
        ⟨hp.allocated, .Disequality l.node r.node⟩
      rcases BaseFormula.eq_of_equalTo_Disequality h2 with h | h
      · exact h
      · rcases h1 with h1 | h1
        · exact congrArg Obj.node h1
        · exact absurd h (hNe _ h1)
    refine ⟨FormulaDatabase.addFormula_mem H db _, hD, fun ostr w => ?_⟩
    rw [hD, BaseFormula.printFormula_Disequality]

/-- C8, amended, where only one of the two preconditions holds: in the pool
that holds the plain `Atom` made by `makeAtom("~=", {x, y})` the handle for
`makeEquality(x, y)` prints `x = y`, and in the pool that holds the plain
`Atom` made by `makeAtom("=", {x, y})` the handle for `makeDisequality(x, y)`
prints `x ~= y`. -/
theorem make_equality_prints_witness :
    ((∀ e ∈ Sample.fdbNe._formulas,
        e.node ≠ .Atom "=" [(⟨0, Sample.x⟩ : Term).node, (⟨1, Sample.y⟩ : Term).node])
      ∧ BaseFormula.printFormula
          (Sample.fdbNe.makeEquality Sample.H ⟨3⟩ ⟨0, Sample.x⟩ ⟨1, Sample.y⟩).1.node
          (.other 0) Output.empty (.other 0) = "x = y")
    ∧ ((∀ e ∈ Sample.fdbEq._formulas,
        e.node ≠ .Atom "~=" [(⟨0, Sample.x⟩ : Term).node, (⟨1, Sample.y⟩ : Term).node])
      ∧ BaseFormula.printFormula
          (Sample.fdbEq.makeDisequality Sample.H ⟨3⟩ ⟨0, Sample.x⟩ ⟨1, Sample.y⟩).1.node
          (.other 0) Output.empty (.other 0) = "x ~= y") := by
  have hEq : ∀ e ∈ Sample.fdbNe._formulas,
      e.node ≠ .Atom "=" [(⟨0, Sample.x⟩ : Term).node, (⟨1, Sample.y⟩ : Term).node] := by
    intro e he
    have he2 : e ∈ [(⟨2, .Atom "~=" [Sample.x, Sample.y]⟩ : Obj BaseFormula)] := he
    rw [List.mem_singleton] at he2
    subst he2
    simp
  have hNe : ∀ e ∈ Sample.fdbEq._formulas,
      e.node ≠ .Atom "~=" [(⟨0, Sample.x⟩ : Term).node, (⟨1, Sample.y⟩ : Term).node] := by
    intro e he
    have he2 : e ∈ [(⟨2, .Atom "=" [Sample.x, Sample.y]⟩ : Obj BaseFormula)] := he
    rw [List.mem_singleton] at he2
    subst he2
    simp
  refine ⟨⟨hEq, ?_⟩, ⟨hNe, ?_⟩⟩
  · rw [((make_equality_prints Sample.H Sample.fdbNe ⟨3⟩ ⟨0, Sample.x⟩ ⟨1, Sample.y⟩).1
      hEq).2.2]
    decide
  · rw [((make_equality_prints Sample.H Sample.fdbEq ⟨3⟩ ⟨0, Sample.x⟩ ⟨1, Sample.y⟩).2
      hNe).2.2]
    decide

/-! ## Printing quantifiers and conjunctions -/

/-- C9 at its failing input. `Forall("x", P(x))` printed to a stream other than
`cout` leaves only `P(x)` on that stream and sends `!x . ` to `cout`;
`Exists("x", P(x))` likewise leaves `P(x)` and sends `?x . ` to `cout`. Only
when the stream is `cout` itself does the stream show `!x . P(x)`
(`?x . P(x)`). -/
theorem quantifier_head_goes_to_cout :
    (BaseFormula.printFormula (.Forall "x" Sample.Px) (.other 0) Output.empty (.other 0) = "P(x)"
      ∧ BaseFormula.printFormula (.Forall "x" Sample.Px) (.other 0) Output.empty .cout = "!x . "
      ∧ BaseFormula.printFormula (.Forall "x" Sample.Px) .cout Output.empty .cout = "!x . P(x)")
    ∧ (BaseFormula.printFormula (.Exists_ "x" Sample.Px) (.other 0) Output.empty (.other 0)
        = "P(x)"
      ∧ BaseFormula.printFormula (.Exists_ "x" Sample.Px) (.other 0) Output.empty .cout = "?x . "
      ∧ BaseFormula.printFormula (.Exists_ "x" Sample.Px) .cout Output.empty .cout
        = "?x . P(x)") :=
  ⟨⟨by decide, by decide, by decide⟩, ⟨by decide, by decide, by decide⟩⟩

/-- C10 (And printing). On the stream it is handed, `And(l, r)` adds the text
of `l`, in parentheses exactly when the type of `l` is Or, Imp, Iff, Forall or
Exists, then ` & `, then the text of `r`, in parentheses exactly when the type
of `r` is And, Or, Imp, Iff, Forall or Exists; the text of an operand is what
the operand adds to that stream. Any other stream receives what the operands
send to it and nothing else. `And(P(x), Or(Q(y), R(z)))` prints
`P(x) & (Q(y) | R(z))`. -/
theorem and_print (l r : BaseFormula) (ostr : ostream) (w : Output) :
    BaseFormula.printFormula (.And_ l r) ostr w ostr
        = w ostr
          ++ (parenthesized
                (decide (l.getType ∈ [FormulaType.T_OR, .T_IMP, .T_IFF, .T_FORALL, .T_EXISTS]))
                (l.shown ostr)
              ++ " & "
              ++ parenthesized
                (decide (r.getType ∈
                  [FormulaType.T_AND, .T_OR, .T_IMP, .T_IFF, .T_FORALL, .T_EXISTS]))
                (r.shown ostr))
    ∧ (∀ x : ostream, x ≠ ostr →
        BaseFormula.printFormula (.And_ l r) ostr w x
          = w x ++ (l.emitted ostr x ++ r.emitted ostr x))
    ∧ BaseFormula.printFormula
        (.And_ (.Atom "P" [.VariableTerm "x"])
          (.Or_ (.Atom "Q" [.VariableTerm "y"]) (.Atom "R" [.VariableTerm "z"])))
        ostr Output.empty ostr = "P(x) & (Q(y) | R(z))" := by
  refine ⟨?_, ?_, ?_⟩
  · rw [BaseFormula.printFormula]
    simp only [BaseFormula.shown]
    cases hl : l.getType <;> cases hr : r.getType <;>
      simp [-String.reduceAppend, parenthesized, Output.put_same,
        BaseFormula.printFormula_apply, String.append_assoc]
  · intro x hx
    rw [BaseFormula.printFormula]
    cases hl : l.getType <;> cases hr : r.getType <;>
      simp [Output.put_other, hx, BaseFormula.printFormula_apply, String.append_assoc]
  · simp [BaseFormula.printFormula, BaseFormula.getType, BaseTerm.printLoop,
      BaseTerm.printTerm, Output.put, Output.empty]

/-! ## The text of a connective in terms of the texts of its operands -/

namespace BaseFormula

open FormulaType

/-- The text `And` adds to the stream it is handed. -/
theorem shown_And (l r : BaseFormula) (o : ostream) :
    (And_ l r).shown o
      = parenthesized (decide (l.getType ∈ [T_OR, T_IMP, T_IFF, T_FORALL, T_EXISTS]))
          (l.shown o)
        ++ " & "
        ++ parenthesized
          (decide (r.getType ∈ [T_AND, T_OR, T_IMP, T_IFF, T_FORALL, T_EXISTS])) (r.shown o) := by
  rw [shown, emitted, printFormula]
  simp only [shown]
  cases hl : l.getType <;> cases hr : r.getType <;>
    simp [-String.reduceAppend, parenthesized, Output.put_same, Output.empty,
      printFormula_apply, String.append_assoc]

/-- The text `Or` adds to the stream it is handed. -/
theorem shown_Or (l r : BaseFormula) (o : ostream) :
    (Or_ l r).shown o
      = parenthesized (decide (l.getType ∈ [T_IMP, T_IFF, T_FORALL, T_EXISTS])) (l.shown o)
        ++ " | "
        ++ parenthesized
          (decide (r.getType ∈ [T_OR, T_IMP, T_IFF, T_FORALL, T_EXISTS])) (r.shown o) := by
  rw [shown, emitted, printFormula]
  simp only [shown]
  cases hl : l.getType <;> cases hr : r.getType <;>
    simp [-String.reduceAppend, parenthesized, Output.put_same, Output.empty,
      printFormula_apply, String.append_assoc]

/-- The text `Imp` adds to the stream it is handed. -/
theorem shown_Imp (l r : BaseFormula) (o : ostream) :
    (Imp l r).shown o
      = parenthesized (decide (l.getType ∈ [T_IMP, T_IFF, T_FORALL, T_EXISTS])) (l.shown o)
        ++ " => "
        ++ parenthesized (decide (r.getType ∈ [T_IFF, T_FORALL, T_EXISTS])) (r.shown o) := by
  rw [shown, emitted, printFormula]
  simp only [shown]
  cases hl : l.getType <;> cases hr : r.getType <;>
    simp [-String.reduceAppend, parenthesized, Output.put_same, Output.empty,
      printFormula_apply, String.append_assoc]

/-- The text `Iff` adds to the stream it is handed. -/
theorem shown_Iff (l r : BaseFormula) (o : ostream) :
    (Iff_ l r).shown o
      = parenthesized (decide (l.getType ∈ [T_IFF, T_FORALL, T_EXISTS])) (l.shown o)
        ++ " <=> "
        ++ parenthesized (decide (r.getType ∈ [T_FORALL, T_EXISTS])) (r.shown o) := by
  rw [shown, emitted, printFormula]
  simp only [shown]
  cases hl : l.getType <;> cases hr : r.getType <;>
    simp [-String.reduceAppend, parenthesized, Output.put_same, Output.empty,
      printFormula_apply, String.append_assoc]

/-- The text `Not` adds to the stream it is handed. -/
theorem shown_Not (f : BaseFormula) (o : ostream) :
    (Not_ f).shown o
      = "~" ++ parenthesized
          (decide (f.getType ∈ [T_AND, T_OR, T_IMP, T_IFF, T_FORALL, T_EXISTS])) (f.shown o) := by
  rw [shown, emitted, printFormula]
  simp only [shown]
  cases hf : f.getType <;>
    simp [-String.reduceAppend, parenthesized, Output.put_same, Output.empty,
      printFormula_apply, String.append_assoc]

/-- A binary connective or `Not` sends to a stream other than the one it is
handed only what its operands send there. -/
theorem emitted_other (o x : ostream) (hx : x ≠ o) (l r : BaseFormula) :
    (And_ l r).emitted o x = l.emitted o x ++ r.emitted o x
    ∧ (Or_ l r).emitted o x = l.emitted o x ++ r.emitted o x
    ∧ (Imp l r).emitted o x = l.emitted o x ++ r.emitted o x
    ∧ (Iff_ l r).emitted o x = l.emitted o x ++ r.emitted o x
    ∧ (Not_ l).emitted o x = l.emitted o x := by
  refine ⟨?_, ?_, ?_, ?_, ?_⟩
  all_goals
    rw [emitted, printFormula]
    cases hl : l.getType <;> cases hr : r.getType <;>
      simp [Output.put_other, hx, Output.empty, printFormula_apply]

/-- What printing adds to the stream it is handed is the formula's text. -/
theorem printFormula_same (f : BaseFormula) (o : ostream) (w : Output) :
    printFormula f o w o = w o ++ f.shown o :=
  printFormula_apply f o w o

end BaseFormula

/-! ## Printing disjunctions, equivalences, implications and negations -/

/-- C11 (Or printing). On the stream it is handed, `Or(l, r)` adds the text of
`l`, in parentheses exactly when the type of `l` is Imp, Iff, Forall or Exists
(so an And on the left is bare), then ` | `, then the text of `r`, in
parentheses exactly when the type of `r` is Or, Imp, Iff, Forall or Exists.
Any other stream receives what the operands send to it and nothing else.
`Or(And(A, B), C)` with 0-ary atoms prints `A & B | C`. -/
theorem or_print (l r : BaseFormula) (ostr : ostream) (w : Output) :
    BaseFormula.printFormula (.Or_ l r) ostr w ostr
        = w ostr
          ++ (parenthesized
                (decide (l.getType ∈ [FormulaType.T_IMP, .T_IFF, .T_FORALL, .T_EXISTS]))
                (l.shown ostr)
              ++ " | "
              ++ parenthesized
                (decide (r.getType ∈ [FormulaType.T_OR, .T_IMP, .T_IFF, .T_FORALL, .T_EXISTS]))
                (r.shown ostr))
    ∧ (∀ x : ostream, x ≠ ostr →
        BaseFormula.printFormula (.Or_ l r) ostr w x
          = w x ++ (l.emitted ostr x ++ r.emitted ostr x))
    ∧ BaseFormula.printFormula
        (.Or_ (.And_ (.Atom "A" []) (.Atom "B" [])) (.Atom "C" []))
        ostr Output.empty ostr = "A & B | C" := by
  refine ⟨?_, ?_, ?_⟩
  · rw [BaseFormula.printFormula_same, BaseFormula.shown_Or]
  · intro x hx
    rw [BaseFormula.printFormula_apply, (BaseFormula.emitted_other ostr x hx l r).2.1]
  · simp [BaseFormula.printFormula, BaseFormula.getType, BaseTerm.printLoop,
      Output.put, Output.empty]

/-- C12, as stated, fails: `Iff(A, Iff(B, C))` with 0-ary atoms prints
`A <=> B <=> C`; the right operand, although an Iff, is not put in
parentheses, so the text is not `A <=> (B <=> C)`. -/
theorem iff_print_counterexample :
    (BaseFormula.Iff_ (.Atom "B" []) (.Atom "C" [])).getType = FormulaType.T_IFF
    ∧ BaseFormula.printFormula
        (.Iff_ (.Atom "A" []) (.Iff_ (.Atom "B" []) (.Atom "C" [])))
        (.other 0) Output.empty (.other 0) = "A <=> B <=> C"
    ∧ (BaseFormula.Atom "A" []).shown (.other 0) ++ " <=> "
        ++ parenthesized true
            ((BaseFormula.Iff_ (.Atom "B" []) (.Atom "C" [])).shown (.other 0))
        = "A <=> (B <=> C)" :=
  ⟨by decide, by decide, by decide⟩

/-- C12, amended. On the stream it is handed, `Iff(l, r)` adds the text of `l`,
in parentheses exactly when the type of `l` is Iff, Forall or Exists, then
` <=> `, then the text of `r`, in parentheses exactly when the type of `r` is
Forall or Exists (a right-nested Iff is bare). Any other stream receives what
the operands send to it and nothing else. -/
theorem iff_print (l r : BaseFormula) (ostr : ostream) (w : Output) :
    BaseFormula.printFormula (.Iff_ l r) ostr w ostr
        = w ostr
          ++ (parenthesized
                (decide (l.getType ∈ [FormulaType.T_IFF, .T_FORALL, .T_EXISTS]))
                (l.shown ostr)
              ++ " <=> "
              ++ parenthesized
                (decide (r.getType ∈ [FormulaType.T_FORALL, .T_EXISTS]))
                (r.shown ostr))
    ∧ (∀ x : ostream, x ≠ ostr →
        BaseFormula.printFormula (.Iff_ l r) ostr w x
          = w x ++ (l.emitted ostr x ++ r.emitted ostr x)) := by
  refine ⟨?_, ?_⟩
  · rw [BaseFormula.printFormula_same, BaseFormula.shown_Iff]
  · intro x hx
    rw [BaseFormula.printFormula_apply, (BaseFormula.emitted_other ostr x hx l r).2.2.2.1]

/-- C13 (Imp printing). On the stream it is handed, `Imp(l, r)` adds the text
of `l`, in parentheses exactly when the type of `l` is Imp, Iff, Forall or
Exists, then ` => `, then the text of `r`, in parentheses exactly when the type
of `r` is Iff, Forall or Exists (a right-nested Imp is bare). Any other stream
receives what the operands send to it and nothing else. -/
theorem imp_print (l r : BaseFormula) (ostr : ostream) (w : Output) :
    BaseFormula.printFormula (.Imp l r) ostr w ostr
        = w ostr
          ++ (parenthesized
                (decide (l.getType ∈ [FormulaType.T_IMP, .T_IFF, .T_FORALL, .T_EXISTS]))
                (l.shown ostr)
              ++ " => "
              ++ parenthesized
                (decide (r.getType ∈ [FormulaType.T_IFF, .T_FORALL, .T_EXISTS]))
                (r.shown ostr))
    ∧ (∀ x : ostream, x ≠ ostr →
        BaseFormula.printFormula (.Imp l r) ostr w x
          = w x ++ (l.emitted ostr x ++ r.emitted ostr x))
    ∧ BaseFormula.printFormula
        (.Imp (.Atom "A" []) (.Imp (.Atom "B" []) (.Atom "C" [])))
        ostr Output.empty ostr = "A => B => C"
    ∧ BaseFormula.printFormula
        (.Imp (.Imp (.Atom "A" []) (.Atom "B" [])) (.Atom "C" []))
        ostr Output.empty ostr = "(A => B) => C" := by
  refine ⟨?_, ?_, ?_, ?_⟩
  · rw [BaseFormula.printFormula_same, BaseFormula.shown_Imp]
  · intro x hx
    rw [BaseFormula.printFormula_apply, (BaseFormula.emitted_other ostr x hx l r).2.2.1]
  · simp [BaseFormula.printFormula, BaseFormula.getType, BaseTerm.printLoop,
      Output.put, Output.empty]
  · simp [BaseFormula.printFormula, BaseFormula.getType, BaseTerm.printLoop,
      Output.put, Output.empty]

/-- C14 (Not printing). On the stream it is handed, `Not(f)` adds `~` and then
the text of `f`, in parentheses exactly when the type of `f` is And, Or, Imp,
Iff, Forall or Exists; so `Not(Not(g))` starts with `~~`, and a True, False,
Atom, Equality or Disequality operand is bare. Any other stream receives what
the operand sends to it and nothing else. -/
theorem not_print (f : BaseFormula) (ostr : ostream) (w : Output) :
    BaseFormula.printFormula (.Not_ f) ostr w ostr
        = w ostr
          ++ ("~" ++ parenthesized
                (decide (f.getType ∈
                  [FormulaType.T_AND, .T_OR, .T_IMP, .T_IFF, .T_FORALL, .T_EXISTS]))
                (f.shown ostr))
    ∧ (∀ x : ostream, x ≠ ostr →
        BaseFormula.printFormula (.Not_ f) ostr w x = w x ++ f.emitted ostr x)
    ∧ BaseFormula.printFormula (.Not_ (.Not_ f)) ostr w ostr
        = w ostr
          ++ ("~~" ++ parenthesized
                (decide (f.getType ∈
                  [FormulaType.T_AND, .T_OR, .T_IMP, .T_IFF, .T_FORALL, .T_EXISTS]))
                (f.shown ostr))
    ∧ BaseFormula.printFormula (.Not_ .True_) ostr w ostr = w ostr ++ "~true"
    ∧ BaseFormula.printFormula (.Not_ .False_) ostr w ostr = w ostr ++ "~false"
    ∧ (∀ (p : PredicateSymbol) (ops : List BaseTerm),
        BaseFormula.printFormula (.Not_ (.Atom p ops)) ostr w ostr
          = w ostr ++ ("~" ++ (BaseFormula.Atom p ops).shown ostr))
    ∧ (∀ a b : BaseTerm,
        BaseFormula.printFormula (.Not_ (.Equality a b)) ostr w ostr
            = w ostr ++ ("~" ++ (a.str ++ " = " ++ b.str))
        ∧ BaseFormula.printFormula (.Not_ (.Disequality a b)) ostr w ostr
            = w ostr ++ ("~" ++ (a.str ++ " ~= " ++ b.str))) := by
  have hE : ∀ a b : BaseTerm, (BaseFormula.Equality a b).shown ostr = a.str ++ " = " ++ b.str := by
    intro a b
    rw [BaseFormula.shown, BaseFormula.emitted, BaseFormula.printFormula_Equality,
      Output.put_same]
    simp [Output.empty]
  have hD : ∀ a b : BaseTerm,
      (BaseFormula.Disequality a b).shown ostr = a.str ++ " ~= " ++ b.str := by
    intro a b
    rw [BaseFormula.shown, BaseFormula.emitted, BaseFormula.printFormula_Disequality,
      Output.put_same]
    simp [Output.empty]
  refine ⟨?_, ?_, ?_, ?_, ?_, ?_, ?_⟩
  · rw [BaseFormula.printFormula_same, BaseFormula.shown_Not]
  · intro x hx
    rw [BaseFormula.printFormula_apply, (BaseFormula.emitted_other ostr x hx f f).2.2.2.2]
  · have ht : (BaseFormula.Not_ f).getType = FormulaType.T_NOT := rfl
    have hp : ∀ s : String, parenthesized (decide (FormulaType.T_NOT ∈
        [FormulaType.T_AND, .T_OR, .T_IMP, .T_IFF, .T_FORALL, .T_EXISTS])) s = s :=
      fun s => by simp [parenthesized]
    rw [BaseFormula.printFormula_same, BaseFormula.shown_Not, ht, hp, BaseFormula.shown_Not]
    congr 1
  · rw [BaseFormula.printFormula_same, BaseFormula.shown_Not]
    simp [BaseFormula.getType, parenthesized, BaseFormula.shown, BaseFormula.emitted,
      BaseFormula.printFormula, Output.put, Output.empty]
  · rw [BaseFormula.printFormula_same, BaseFormula.shown_Not]
    simp [BaseFormula.getType, parenthesized, BaseFormula.shown, BaseFormula.emitted,
      BaseFormula.printFormula, Output.put, Output.empty]
  · intro p ops
    rw [BaseFormula.printFormula_same, BaseFormula.shown_Not]
    simp [BaseFormula.getType, parenthesized]
  · intro a b
    constructor
    · rw [BaseFormula.printFormula_same, BaseFormula.shown_Not, hE]
      simp [BaseFormula.getType, parenthesized]
    · rw [BaseFormula.printFormula_same, BaseFormula.shown_Not, hD]
      simp [BaseFormula.getType, parenthesized]

/-! ## Printing applications -/

/-- The accumulator of `String.intercalate` can be split off. -/
theorem intercalate_go_append (x y s : String) (l : List String) :
    String.intercalate.go (x ++ y) s l = x ++ String.intercalate.go y s l := by
  induction l generalizing y with
  | nil => rfl
  | cons a l ih =>
    rw [String.intercalate.go, String.intercalate.go, String.append_assoc,
      String.append_assoc, ih, ← String.append_assoc]

/-- Joining at least two strings: the first, the separator, the rest joined. -/
theorem intercalate_cons_cons (s a b : String) (l : List String) :
    s.intercalate (a :: b :: l) = a ++ s ++ s.intercalate (b :: l) := by
  rw [String.intercalate, String.intercalate, String.intercalate.go, String.append_assoc,
    intercalate_go_append, intercalate_go_append, String.append_assoc]

/-- The length of the joined strings: all their lengths and one separator
between neighbours. -/
theorem intercalate_length (s : String) (l : List String) :
    (s.intercalate l).length = (l.map String.length).sum + (l.length - 1) * s.length := by
  induction l with
  | nil => simp [String.intercalate]
  | cons a l ih =>
    cases l with
    | nil => simp [String.intercalate, String.intercalate.go]
    | cons b l =>
      rw [intercalate_cons_cons, String.length_append, String.length_append, ih]
      simp only [List.map_cons, List.sum_cons, List.length_cons, Nat.add_sub_cancel]
      rw [Nat.succ_mul]
      omega

namespace BaseTerm

/-- The operand loop, run from index `i` over the operands `_ops[i..]` that are
left, writes `(` if `i` is 0, then the operand texts separated by commas, then
`)`. -/
theorem printLoop_text : ∀ (ops : List BaseTerm) (size i : Nat), ops ≠ [] →
    i + ops.length = size → ∀ (o : ostream) (w : Output),
    printLoop size i ops o w
      = w.put o ((if i = 0 then "(" else "") ++ ",".intercalate (ops.map str) ++ ")")
  | [], _, _, h, _, _, _ => absurd rfl h
  | [t], size, i, _, hi, o, w => by
    have hlast : i = size - 1 := by
      simp only [List.length_singleton] at hi
      omega
    rw [printLoop, printLoop]
    by_cases h0 : i = 0 <;>
      simp [-String.reduceAppend, h0, ← hlast, printTerm_eq, Output.put_put,
        String.intercalate, String.intercalate.go, String.append_assoc]
  | t :: t2 :: rest, size, i, _, hi, o, w => by
    have hne : i ≠ size - 1 := by
      simp only [List.length_cons] at hi
      omega
    have ih := printLoop_text (t2 :: rest) size (i + 1) (List.cons_ne_nil _ _)
      (by simp only [List.length_cons] at hi ⊢; omega) o
    rw [printLoop]
    simp only [ih, List.map_cons, intercalate_cons_cons]
    by_cases h0 : i = 0
    · subst h0
      simp [-String.reduceAppend, hne, printTerm_eq, Output.put_put, String.append_assoc]
    · simp [-String.reduceAppend, h0, hne, printTerm_eq, Output.put_put, String.append_assoc]

end BaseTerm

/-- C15 (application printing). `Function(s, ops)` and `Atom(s, ops)` both
print, on the stream they are handed, `s` alone when `ops` is empty and
otherwise `s`, `(`, the operand texts joined by `,` and `)`; a Variable prints
its bare name. For a non-empty application the text is longer than the symbol
and the operand texts together by one opening parenthesis, one closing
parenthesis and one comma less than there are operands. `f(x,g(y),z)` is an
example. -/
theorem application_print (s : String) (ops : List BaseTerm) (n : Variable)
    (ostr : ostream) (w : Output) :
    BaseTerm.printTerm (.FunctionTerm s ops) ostr w
        = w.put ostr (applicationText s (ops.map BaseTerm.str))
    ∧ BaseFormula.printFormula (.Atom s ops) ostr w
        = w.put ostr (applicationText s (ops.map BaseTerm.str))
    ∧ BaseTerm.printTerm (.VariableTerm n) ostr w = w.put ostr n
    ∧ applicationText s [] = s
    ∧ (∀ (a : String) (l : List String),
        applicationText s (a :: l) = s ++ "(" ++ ",".intercalate (a :: l) ++ ")"
        ∧ (applicationText s (a :: l)).length
            = s.length + 1 + ((a :: l).map String.length).sum + l.length + 1)
    ∧ BaseTerm.printTerm
        (.FunctionTerm "f" [.VariableTerm "x", .FunctionTerm "g" [.VariableTerm "y"],
          .FunctionTerm "c" []])
        ostr Output.empty ostr = "f(x,g(y),c)" := by
  have hloop : ∀ w : Output, BaseTerm.printLoop ops.length 0 ops ostr (w.put ostr s)
      = w.put ostr (applicationText s (ops.map BaseTerm.str)) := by
    intro w
    cases hops : ops with
    | nil => simp [BaseTerm.printLoop, applicationText]
    | cons t rest =>
      rw [BaseTerm.printLoop_text (t :: rest) _ 0 (List.cons_ne_nil _ _) (by simp),
        Output.put_put]
      simp [-String.reduceAppend, applicationText, String.append_assoc]
  refine ⟨?_, ?_, ?_, ?_, ?_, ?_⟩
  · rw [BaseTerm.printTerm, hloop]
  · rw [BaseFormula.printFormula, hloop]
  · rw [BaseTerm.printTerm]
  · rfl
  · intro a l
    refine ⟨rfl, ?_⟩
    simp only [applicationText, List.isEmpty_cons, Bool.false_eq_true, if_false,
      String.length_append, intercalate_length, List.length_cons, Nat.add_sub_cancel]
    have h1 : "(".length = 1 := rfl
    have h2 : ")".length = 1 := rfl
    have h3 : ",".length = 1 := rfl
    rw [h1, h2, h3]
    omega
  · simp [BaseTerm.printTerm, BaseTerm.printLoop, Output.put, Output.empty]

/-! ## The bound-variable accessor -/

/-- C16 (accessor contract violation). `getVariable` returns the bound variable
of a Forall or an Exists, and on every other formula (True, False, Atom,
Equality, Disequality, Not, And, Or, Imp, Iff) it throws `Not implemented`: a
formula yields a variable exactly when its type is Forall or Exists, and
otherwise yields the error, never a default value. -/
theorem getVariable_contract (f : BaseFormula) :
    (∀ (v : Variable) (body : BaseFormula),
        (BaseFormula.Forall v body).getVariable = .ok v
        ∧ (BaseFormula.Exists_ v body).getVariable = .ok v)
    ∧ BaseFormula.True_.getVariable = .error .NotImplemented
    ∧ BaseFormula.False_.getVariable = .error .NotImplemented
    ∧ (∀ (p : PredicateSymbol) (ops : List BaseTerm),
        (BaseFormula.Atom p ops).getVariable = .error .NotImplemented)
    ∧ (∀ l r : BaseTerm,
        (BaseFormula.Equality l r).getVariable = .error .NotImplemented
        ∧ (BaseFormula.Disequality l r).getVariable = .error .NotImplemented)
    ∧ (∀ a : BaseFormula, (BaseFormula.Not_ a).getVariable = .error .NotImplemented)
    ∧ (∀ a b : BaseFormula,
        (BaseFormula.And_ a b).getVariable = .error .NotImplemented
        ∧ (BaseFormula.Or_ a b).getVariable = .error .NotImplemented
        ∧ (BaseFormula.Imp a b).getVariable = .error .NotImplemented
        ∧ (BaseFormula.Iff_ a b).getVariable = .error .NotImplemented)
    ∧ ((∃ v, f.getVariable = .ok v)
        ↔ f.getType = FormulaType.T_FORALL ∨ f.getType = FormulaType.T_EXISTS)
    ∧ (f.getVariable = .error .NotImplemented
        ↔ ¬ (f.getType = FormulaType.T_FORALL ∨ f.getType = FormulaType.T_EXISTS)) := by
  refine ⟨fun _ _ => ⟨rfl, rfl⟩, rfl, rfl, fun _ _ => rfl, fun _ _ => ⟨rfl, rfl⟩,
    fun _ => rfl, fun _ _ => ⟨rfl, rfl, rfl, rfl⟩, ?_, ?_⟩
  · cases f <;> simp [BaseFormula.getVariable, BaseFormula.getType]
  · cases f <;> simp [BaseFormula.getVariable, BaseFormula.getType]

/-! ## The XOR hash does not see the order of operands -/

/-- The hash loop gives the same result on permuted operand lists. -/
theorem BaseTerm.hashCodeLoop_perm (H : String → Nat) {ops tops : List BaseTerm}
    (hp : ops.Perm tops) : ∀ h : Nat,
    BaseTerm.hashCodeLoop H h ops = BaseTerm.hashCodeLoop H h tops := by
  induction hp with
  | nil => intro h; rfl
  | cons a _ ih =>
    intro h
    rw [BaseTerm.hashCodeLoop, BaseTerm.hashCodeLoop, ih]
  | swap a b l =>
    intro h
    simp only [BaseTerm.hashCodeLoop]
    rw [Nat.xor_assoc, Nat.xor_comm (BaseTerm.hashCode H b), ← Nat.xor_assoc]
  | trans _ _ ih1 ih2 =>
    intro h
    rw [ih1, ih2]

/-- C18 (the XOR hash is permutation-invariant). For operand lists that are
permutations of each other, `Function(s, ops)` and `Function(s, ops')` have the
same hash code, and so have `Atom(s, ops)` and `Atom(s, ops')`; for And, Or,
Imp and Iff, `C(a, b)` and `C(b, a)` have the same hash code. -/
theorem xor_hash_permutation_invariant (H : String → Nat) (s : String)
    (ops tops : List BaseTerm) (a b : BaseFormula) (hp : ops.Perm tops) :
    BaseTerm.hashCode H (.FunctionTerm s ops) = BaseTerm.hashCode H (.FunctionTerm s tops)
    ∧ BaseFormula.hashCode H (.Atom s ops) = BaseFormula.hashCode H (.Atom s tops)
    ∧ BaseFormula.hashCode H (.And_ a b) = BaseFormula.hashCode H (.And_ b a)
    ∧ BaseFormula.hashCode H (.Or_ a b) = BaseFormula.hashCode H (.Or_ b a)
    ∧ BaseFormula.hashCode H (.Imp a b) = BaseFormula.hashCode H (.Imp b a)
    ∧ BaseFormula.hashCode H (.Iff_ a b) = BaseFormula.hashCode H (.Iff_ b a) := by
  have hx : ∀ x y z : Nat, x ^^^ y ^^^ z = x ^^^ z ^^^ y := by
    intro x y z
    rw [Nat.xor_assoc, Nat.xor_comm y, ← Nat.xor_assoc]
  refine ⟨?_, ?_, ?_, ?_, ?_, ?_⟩
  · rw [BaseTerm.hashCode, BaseTerm.hashCode, BaseTerm.hashCodeLoop_perm H hp]
  · rw [BaseFormula.hashCode, BaseFormula.hashCode, BaseTerm.hashCodeLoop_perm H hp]
  · simp only [BaseFormula.hashCode]
    exact hx _ _ _
  · simp only [BaseFormula.hashCode]
    exact hx _ _ _
  · simp only [BaseFormula.hashCode]
    exact hx _ _ _
  · simp only [BaseFormula.hashCode]
    exact hx _ _ _

/-- C18 at `f(x, y)` against `f(y, x)` and at `P(x) => x = y` against
`x = y => P(x)`: the terms and the formulas are not `equalTo` each other, and
their hash codes agree. -/
theorem xor_hash_permutation_invariant_witness :
    [Sample.x, Sample.y].Perm [Sample.y, Sample.x]
    ∧ BaseTerm.equalTo (.FunctionTerm "f" [Sample.x, Sample.y])
        (.FunctionTerm "f" [Sample.y, Sample.x]) = false
    ∧ BaseTerm.hashCode Sample.H (.FunctionTerm "f" [Sample.x, Sample.y])
        = BaseTerm.hashCode Sample.H (.FunctionTerm "f" [Sample.y, Sample.x])
    ∧ BaseFormula.equalTo (.Imp Sample.Px (.Equality Sample.x Sample.y))
        (.Imp (.Equality Sample.x Sample.y) Sample.Px) = false
    ∧ BaseFormula.hashCode Sample.H (.Imp Sample.Px (.Equality Sample.x Sample.y))
        = BaseFormula.hashCode Sample.H (.Imp (.Equality Sample.x Sample.y) Sample.Px) :=
  have h := xor_hash_permutation_invariant Sample.H "f" [Sample.x, Sample.y]
    [Sample.y, Sample.x] Sample.Px (.Equality Sample.x Sample.y) (List.Perm.swap _ _ _)
  ⟨List.Perm.swap _ _ _, by decide, h.1, by decide, h.2.2.2.2.1⟩

/-! ## Structural equality is an equivalence relation -/

/-- C20 (`equalTo` is an equivalence relation). On terms and on formulas,
`Equality`, `Disequality` and `Atom` objects mixed, `a.equalTo(a)` is true,
`a.equalTo(b)` and `b.equalTo(a)` have the same value, and `a.equalTo(b)` and
`b.equalTo(c)` together give `a.equalTo(c)`. -/
theorem equalTo_equivalence (a b c : BaseTerm) (f g h : BaseFormula) :
    (BaseTerm.equalTo a a = true
      ∧ BaseTerm.equalTo a b = BaseTerm.equalTo b a
      ∧ (BaseTerm.equalTo a b = true → BaseTerm.equalTo b c = true →
          BaseTerm.equalTo a c = true))
    ∧ (BaseFormula.equalTo f f = true
      ∧ BaseFormula.equalTo f g = BaseFormula.equalTo g f
      ∧ (BaseFormula.equalTo f g = true → BaseFormula.equalTo g h = true →
          BaseFormula.equalTo f h = true))
    ∧ (BaseFormula.equalTo (.Equality a b) (.Atom "=" [a, b]) = true
      ∧ BaseFormula.equalTo (.Atom "=" [a, b]) (.Equality a b) = true
      ∧ BaseFormula.equalTo (.Disequality a b) (.Atom "~=" [a, b]) = true
      ∧ BaseFormula.equalTo (.Atom "~=" [a, b]) (.Disequality a b) = true) := by
  refine ⟨⟨BaseTerm.equalTo_refl a, ?_, ?_⟩, ⟨BaseFormula.equalTo_self f, ?_, ?_⟩, ?_⟩
  · rw [Bool.eq_iff_iff, BaseTerm.equalTo_iff_eq, BaseTerm.equalTo_iff_eq]
    exact eq_comm
  · intro h1 h2
    rw [BaseTerm.equalTo_iff_eq] at h1 h2 ⊢
    exact h1.trans h2
  · rw [Bool.eq_iff_iff, BaseFormula.equalTo_iff_asAtom_eq, BaseFormula.equalTo_iff_asAtom_eq]
    exact eq_comm
  · exact fun h1 h2 => BaseFormula.equalTo_trans h1 h2
  · simp [BaseFormula.equalTo_iff_asAtom_eq, BaseFormula.asAtom]

/-! ## The spelled-out methods never fault -/

namespace BaseTerm

/-- With operands that compare without fault, and operand vectors of equal
size, the spelled-out loop runs to its end without fault and returns what the
loop over the operand lists returns. -/
theorem equalToLoopChecked_eq (ops tops : List BaseTerm) (hlen : tops.length = ops.length)
    (ih : ∀ o ∈ ops, ∀ t, equalToChecked o t = .ok (equalTo o t)) :
    ∀ (n i : Nat), n = ops.length - i → i ≤ ops.length →
      equalToLoopChecked ops tops i = .ok (equalToLoop (ops.drop i) (tops.drop i)) := by
  intro n
  induction n with
  | zero =>
    intro i hn hi
    have hi2 : i = ops.length := by omega
    rw [equalToLoopChecked]
    simp [hi2, equalToLoop, pure, Except.pure]
  | succ n ihn =>
    intro i hn hi
    have hlt : i < ops.length := by omega
    have hlt2 : i < tops.length := by omega
    rw [equalToLoopChecked]
    have h1 : ops[i]? = some ops[i] := List.getElem?_eq_getElem hlt
    have h2 : tops[i]? = some tops[i] := List.getElem?_eq_getElem hlt2
    have hd1 : ops.drop i = ops[i] :: ops.drop (i + 1) := List.drop_eq_getElem_cons hlt
    have hd2 : tops.drop i = tops[i] :: tops.drop (i + 1) := List.drop_eq_getElem_cons hlt2
    have hrec := ihn (i + 1) (by omega) (by omega)
    have he := ih ops[i] (List.getElem_mem hlt) tops[i]
    rw [hd1, hd2, equalToLoop]
    simp only [hlt, if_true]
    split
    · rename_i o t ho ht
      rw [h1] at ho
      rw [h2] at ht
      cases ho
      cases ht
      simp only [he, bind, Except.bind, hrec, pure, Except.pure]
      cases equalTo ops[i] tops[i] <;> simp
    · rename_i hne
      exact (hne _ _ h1 h2).elim

end BaseTerm

namespace BaseTerm

mutual
/-- The spelled-out `equalTo` on terms never faults and returns what `equalTo`
returns. -/
theorem equalToChecked_eq : ∀ a b : BaseTerm, equalToChecked a b = .ok (equalTo a b)
  | VariableTerm v, VariableTerm tv => by
    rw [equalToChecked]
    simp [getType, getVariable, equalTo, bind, Except.bind, pure, Except.pure]
  | VariableTerm v, FunctionTerm tf tops => by
    rw [equalToChecked]
    simp [getType, equalTo, pure, Except.pure]
  | FunctionTerm f ops, VariableTerm tv => by
    rw [equalToChecked]
    simp [getType, equalTo, pure, Except.pure]
  | FunctionTerm f ops, FunctionTerm tf tops => by
    have ih := equalToChecked_all ops
    rw [equalToChecked]
    simp only [getType, getSymbol, getOperands, bind, Except.bind, pure, Except.pure]
    by_cases hf : tf = f
    · by_cases hl : tops.length = ops.length
      · have h := equalToLoopChecked_eq ops tops hl ih _ 0 rfl (Nat.zero_le _)
        simp [hf, hl, h, equalTo]
      · simp [hf, hl, equalTo]
    · simp [hf, equalTo]
/-- Every operand of a list compares without fault. -/
theorem equalToChecked_all : ∀ ops : List BaseTerm,
    ∀ o ∈ ops, ∀ t, equalToChecked o t = .ok (equalTo o t)
  | [], _, ho, _ => absurd ho (List.not_mem_nil _)
  | x :: xs, o, ho, t => by
    rcases List.mem_cons.mp ho with h | h
    · rw [h]
      exact equalToChecked_eq x t
    · exact equalToChecked_all xs o h t
end

/-- With operands that hash without fault, the spelled-out hash loop runs to
its end without fault and returns what the loop over the operand list
returns. -/
theorem hashCodeLoopChecked_eq (H : String → Nat) (ops : List BaseTerm)
    (ih : ∀ o ∈ ops, hashCodeChecked H o = .ok (hashCode H o)) :
    ∀ (n i h : Nat), n = ops.length - i → i ≤ ops.length →
      hashCodeLoopChecked H ops i h = .ok (hashCodeLoop H h (ops.drop i)) := by
  intro n
  induction n with
  | zero =>
    intro i h hn hi
    have hi2 : i = ops.length := by omega
    rw [hashCodeLoopChecked]
    simp [hi2, hashCodeLoop, pure, Except.pure]
  | succ n ihn =>
    intro i h hn hi
    have hlt : i < ops.length := by omega
    rw [hashCodeLoopChecked]
    have h1 : ops[i]? = some ops[i] := List.getElem?_eq_getElem hlt
    have hd1 : ops.drop i = ops[i] :: ops.drop (i + 1) := List.drop_eq_getElem_cons hlt
    have he := ih ops[i] (List.getElem_mem hlt)
    rw [hd1, hashCodeLoop]
    simp only [hlt, if_true]
    split
    · rename_i o ho
      rw [h1] at ho
      cases ho
      simp only [he, bind, Except.bind]
      exact ihn (i + 1) _ (by omega) (by omega)
    · rename_i hne
      rw [h1] at hne
      exact absurd hne (by simp)

mutual
/-- The spelled-out `hashCode` on terms never faults and returns what
`hashCode` returns. -/
theorem hashCodeChecked_eq (H : String → Nat) :
    ∀ a : BaseTerm, hashCodeChecked H a = .ok (hashCode H a)
  | VariableTerm v => by
    rw [hashCodeChecked, hashCode]
    rfl
  | FunctionTerm f ops => by
    have ih := hashCodeChecked_all H ops
    rw [hashCodeChecked, hashCode,
      hashCodeLoopChecked_eq H ops ih _ 0 _ rfl (Nat.zero_le _)]
    rfl
/-- Every operand of a list hashes without fault. -/
theorem hashCodeChecked_all (H : String → Nat) : ∀ ops : List BaseTerm,
    ∀ o ∈ ops, hashCodeChecked H o = .ok (hashCode H o)
  | [], _, ho => absurd ho (List.not_mem_nil _)
  | x :: xs, o, ho => by
    rcases List.mem_cons.mp ho with h | h
    · rw [h]
      exact hashCodeChecked_eq H x
    · exact hashCodeChecked_all H xs o h
end

/-- With operands that print without fault, the spelled-out print loop runs to
its end without fault and leaves the streams as the loop over the operand list
leaves them. -/
theorem printLoopChecked_eq (ops : List BaseTerm)
    (ih : ∀ t ∈ ops, ∀ o w, printTermChecked t o w = .ok (printTerm t o w)) :
    ∀ (n i : Nat) (o : ostream) (w : Output), n = ops.length - i → i ≤ ops.length →
      printLoopChecked ops i o w = .ok (printLoop ops.length i (ops.drop i) o w) := by
  intro n
  induction n with
  | zero =>
    intro i o w hn hi
    have hi2 : i = ops.length := by omega
    rw [printLoopChecked]
    simp [hi2, printLoop, pure, Except.pure]
  | succ n ihn =>
    intro i o w hn hi
    have hlt : i < ops.length := by omega
    rw [printLoopChecked]
    have h1 : ops[i]? = some ops[i] := List.getElem?_eq_getElem hlt
    have hd1 : ops.drop i = ops[i] :: ops.drop (i + 1) := List.drop_eq_getElem_cons hlt
    rw [hd1, printLoop]
    simp only [hlt, if_true]
    split
    · rename_i t ht
      rw [h1] at ht
      cases ht
      simp only [ih ops[i] (List.getElem_mem hlt), bind, Except.bind]
      exact ihn (i + 1) _ _ (by omega) (by omega)
    · rename_i hne
      rw [h1] at hne
      exact absurd hne (by simp)

mutual
/-- The spelled-out `printTerm` never faults and leaves the streams as
`printTerm` leaves them. -/
theorem printTermChecked_eq : ∀ (a : BaseTerm) (o : ostream) (w : Output),
    printTermChecked a o w = .ok (printTerm a o w)
  | VariableTerm v, o, w => by
    rw [printTermChecked, printTerm]
    rfl
  | FunctionTerm f ops, o, w => by
    have ih := printTermChecked_all ops
    rw [printTermChecked, printTerm,
      printLoopChecked_eq ops ih _ 0 _ _ rfl (Nat.zero_le _)]
    rfl
/-- Every operand of a list prints without fault. -/
theorem printTermChecked_all : ∀ ops : List BaseTerm,
    ∀ t ∈ ops, ∀ o w, printTermChecked t o w = .ok (printTerm t o w)
  | [], _, ht, _, _ => absurd ht (List.not_mem_nil _)
  | x :: xs, t, ht, o, w => by
    rcases List.mem_cons.mp ht with h | h
    · rw [h]
      exact printTermChecked_eq x o w
    · exact printTermChecked_all xs t h o w
end

end BaseTerm

namespace BaseFormula

open FormulaType

/-- The spelled-out `Atom::equalTo` never faults and returns what
`atomEqualTo` returns. -/
theorem atomEqualToChecked_eq (p : PredicateSymbol) (ops : List BaseTerm) (f : BaseFormula) :
    atomEqualToChecked p ops f = .ok (atomEqualTo p ops f) := by
  have key : ∀ (fp : PredicateSymbol) (fops : List BaseTerm),
      (if (fp != p) = true then (pure false : Except Fault Bool)
        else if (fops.length != ops.length) = true then pure false
        else BaseTerm.equalToLoopChecked ops fops 0)
      = .ok (if (fp != p) = true then false
        else if (fops.length != ops.length) = true then false
        else BaseTerm.equalToLoop ops fops) := by
    intro fp fops
    by_cases hp : fp = p
    · by_cases hl : fops.length = ops.length
      · have h := BaseTerm.equalToLoopChecked_eq ops fops hl
          (BaseTerm.equalToChecked_all ops) _ 0 rfl (Nat.zero_le _)
        simp [hp, hl, h]
      · simp [hp, hl, pure, Except.pure]
    · simp [hp, pure, Except.pure]
  cases f
  case Atom fp fops =>
    simp only [atomEqualToChecked, atomEqualTo, atomFields, getType, getSymbol, getOperands,
      bind, Except.bind, bne_self_eq_false, Bool.false_eq_true, if_false]
    exact key fp fops
  case Equality l r =>
    simp only [atomEqualToChecked, atomEqualTo, atomFields, getType, getSymbol, getOperands,
      bind, Except.bind, bne_self_eq_false, Bool.false_eq_true, if_false]
    exact key "=" [l, r]
  case Disequality l r =>
    simp only [atomEqualToChecked, atomEqualTo, atomFields, getType, getSymbol, getOperands,
      bind, Except.bind, bne_self_eq_false, Bool.false_eq_true, if_false]
    exact key "~=" [l, r]
  all_goals simp [atomEqualToChecked, atomEqualTo, atomFields, getType, pure, Except.pure]

/-- The spelled-out `equalTo` on formulas never faults and returns what
`equalTo` returns. -/
theorem equalToChecked_eq_formula (a b : BaseFormula) :
    equalToChecked a b = .ok (equalTo a b) := by
  induction a generalizing b with
  | True_ => rfl
  | False_ => rfl
  | Atom p ops => rw [equalToChecked, equalTo, atomEqualToChecked_eq]
  | Equality l r => rw [equalToChecked, equalTo, atomEqualToChecked_eq]
  | Disequality l r => rw [equalToChecked, equalTo, atomEqualToChecked_eq]
  | Not_ op ih =>
    cases b <;>
      simp [equalToChecked, equalTo, getType, getOperand, ih, bind, Except.bind, pure,
        Except.pure]
  | And_ op1 op2 ih1 ih2 =>
    cases b <;>
      simp [equalToChecked, equalTo, getType, getOperand1, getOperand2, ih1, ih2, bind,
        Except.bind, pure, Except.pure]
    rename_i f1 f2
    cases equalTo op1 f1 <;> simp
  | Or_ op1 op2 ih1 ih2 =>
    cases b <;>
      simp [equalToChecked, equalTo, getType, getOperand1, getOperand2, ih1, ih2, bind,
        Except.bind, pure, Except.pure]
    rename_i f1 f2
    cases equalTo op1 f1 <;> simp
  | Imp op1 op2 ih1 ih2 =>
    cases b <;>
      simp [equalToChecked, equalTo, getType, getOperand1, getOperand2, ih1, ih2, bind,
        Except.bind, pure, Except.pure]
    rename_i f1 f2
    cases equalTo op1 f1 <;> simp
  | Iff_ op1 op2 ih1 ih2 =>
    cases b <;>
      simp [equalToChecked, equalTo, getType, getOperand1, getOperand2, ih1, ih2, bind,
        Except.bind, pure, Except.pure]
    rename_i f1 f2
    cases equalTo op1 f1 <;> simp
  | Forall v op ih =>
    cases b <;>
      simp [equalToChecked, equalTo, getType, getVariable, getOperand, ih, bind,
        Except.bind, pure, Except.pure]
    rename_i fv fop
    by_cases h : fv = v <;> simp [h]
  | Exists_ v op ih =>
    cases b <;>
      simp [equalToChecked, equalTo, getType, getVariable, getOperand, ih, bind,
        Except.bind, pure, Except.pure]
    rename_i fv fop
    by_cases h : fv = v <;> simp [h]

/-- The spelled-out `hashCode` on formulas never faults and returns what
`hashCode` returns. -/
theorem hashCodeChecked_eq_formula (H : String → Nat) (a : BaseFormula) :
    hashCodeChecked H a = .ok (hashCode H a) := by
  have hloop : ∀ (ops : List BaseTerm) (h : Nat),
      BaseTerm.hashCodeLoopChecked H ops 0 h = .ok (BaseTerm.hashCodeLoop H h ops) :=
    fun ops h => BaseTerm.hashCodeLoopChecked_eq H ops (BaseTerm.hashCodeChecked_all H ops)
      _ 0 h rfl (Nat.zero_le _)
  induction a with
  | True_ => rfl
  | False_ => rfl
  | Atom p ops => rw [hashCodeChecked, hashCode, hloop]
  | Equality l r => rw [hashCodeChecked, hashCode, hloop]
  | Disequality l r => rw [hashCodeChecked, hashCode, hloop]
  | Not_ op ih => simp [hashCodeChecked, hashCode, ih, bind, Except.bind, pure, Except.pure]
  | And_ op1 op2 ih1 ih2 =>
    simp [hashCodeChecked, hashCode, ih1, ih2, bind, Except.bind, pure, Except.pure]
  | Or_ op1 op2 ih1 ih2 =>
    simp [hashCodeChecked, hashCode, ih1, ih2, bind, Except.bind, pure, Except.pure]
  | Imp op1 op2 ih1 ih2 =>
    simp [hashCodeChecked, hashCode, ih1, ih2, bind, Except.bind, pure, Except.pure]
  | Iff_ op1 op2 ih1 ih2 =>
    simp [hashCodeChecked, hashCode, ih1, ih2, bind, Except.bind, pure, Except.pure]
  | Forall v op ih =>
    simp [hashCodeChecked, hashCode, ih, bind, Except.bind, pure, Except.pure]
  | Exists_ v op ih =>
    simp [hashCodeChecked, hashCode, ih, bind, Except.bind, pure, Except.pure]

/-- The spelled-out `printFormula` never faults and leaves the streams as
`printFormula` leaves them. -/
theorem printFormulaChecked_eq (a : BaseFormula) (o : ostream) (w : Output) :
    printFormulaChecked a o w = .ok (printFormula a o w) := by
  have hloop : ∀ (ops : List BaseTerm) (w : Output),
      BaseTerm.printLoopChecked ops 0 o w = .ok (BaseTerm.printLoop ops.length 0 ops o w) :=
    fun ops w => BaseTerm.printLoopChecked_eq ops (BaseTerm.printTermChecked_all ops)
      _ 0 o w rfl (Nat.zero_le _)
  induction a generalizing w with
  | True_ => rfl
  | False_ => rfl
  | Atom p ops => rw [printFormulaChecked, printFormula, hloop]
  | Equality l r =>
    simp [printFormulaChecked, printInfixChecked, printFormula, BaseTerm.printTermChecked_eq,
      bind, Except.bind]
  | Disequality l r =>
    simp [printFormulaChecked, printInfixChecked, printFormula, BaseTerm.printTermChecked_eq,
      bind, Except.bind]
  | Not_ op ih =>
    simp [printFormulaChecked, printFormula, ih, bind, Except.bind, pure, Except.pure]
  | And_ op1 op2 ih1 ih2 =>
    simp [printFormulaChecked, printBinaryChecked, printFormula, ih1, ih2, bind,
      Except.bind, pure, Except.pure]
  | Or_ op1 op2 ih1 ih2 =>
    simp [printFormulaChecked, printBinaryChecked, printFormula, ih1, ih2, bind,
      Except.bind, pure, Except.pure]
  | Imp op1 op2 ih1 ih2 =>
    simp [printFormulaChecked, printBinaryChecked, printFormula, ih1, ih2, bind,
      Except.bind, pure, Except.pure]
  | Iff_ op1 op2 ih1 ih2 =>
    simp [printFormulaChecked, printBinaryChecked, printFormula, ih1, ih2, bind,
      Except.bind, pure, Except.pure]
  | Forall v op ih => simp [printFormulaChecked, printFormula, ih]
  | Exists_ v op ih => simp [printFormulaChecked, printFormula, ih]

end BaseFormula

/-- C17 (equality, hashing and printing never fail). With every accessor call
modelled as able to throw `Not implemented` and every `operator[]` as able to
run past the end, `equalTo`, `hashCode` and the printers of terms and formulas
of any two variants return a result and never a fault: the type-tag check
before each accessor call and the operand-count check before the loop rule
both faults out. An accessor called without its guard does throw. -/
theorem methods_never_fault (H : String → Nat) (a b : BaseTerm) (f g : BaseFormula)
    (ostr : ostream) (w : Output) :
    (a.equalToChecked b = .ok (a.equalTo b)
      ∧ a.hashCodeChecked H = .ok (a.hashCode H)
      ∧ a.printTermChecked ostr w = .ok (a.printTerm ostr w))
    ∧ (f.equalToChecked g = .ok (f.equalTo g)
      ∧ f.hashCodeChecked H = .ok (f.hashCode H)
      ∧ f.printFormulaChecked ostr w = .ok (f.printFormula ostr w))
    ∧ ((BaseTerm.FunctionTerm "f" [a]).getVariable = .error .NotImplemented
      ∧ (BaseTerm.VariableTerm "x").getOperands = .error .NotImplemented
      ∧ (BaseFormula.Not_ f).getSymbol = .error .NotImplemented
      ∧ (BaseFormula.Atom "P" [a]).getOperand = .error .NotImplemented) :=
  ⟨⟨BaseTerm.equalToChecked_eq a b, BaseTerm.hashCodeChecked_eq H a,
      BaseTerm.printTermChecked_eq a ostr w⟩,
    ⟨BaseFormula.equalToChecked_eq_formula f g, BaseFormula.hashCodeChecked_eq_formula H f,
      BaseFormula.printFormulaChecked_eq f ostr w⟩,
    ⟨rfl, rfl, rfl, rfl⟩⟩

/-! ## The two associations of a chained connective print differently -/

/-- A list that stays the same when its first element is moved to the end
holds that element only. -/
theorem List.all_eq_of_cons_eq_append {α : Type} (c : α) :
    ∀ xs : List α, c :: xs = xs ++ [c] → ∀ x ∈ xs, x = c
  | [], _, x, hx => absurd hx (List.not_mem_nil _)
  | d :: xs, h, x, hx => by
    rw [List.cons_append, List.cons.injEq] at h
    obtain ⟨hcd, hrest⟩ := h
    subst hcd
    rcases List.mem_cons.mp hx with h1 | h1
    · exact h1
    · exact List.all_eq_of_cons_eq_append c xs hrest x h1

/-- The length of an operand text in parentheses or bare. -/
theorem parenthesized_length (b : Bool) (s : String) :
    (parenthesized b s).length = s.length + (if b then 2 else 0) := by
  cases b
  · simp [parenthesized]
  · simp only [parenthesized, if_true, String.length_append]
    have h1 : "(".length = 1 := rfl
    have h2 : ")".length = 1 := rfl
    omega

/-- The shape of And and Or chains: when a right operand of the own type is put
in parentheses and a left one is not, the left-nested and the right-nested
chain have different texts. -/
theorem left_chain_differs (a sB rc t : String) (cL cR : Bool)
    (h : cL = cR ∨ (cL = false ∧ cR = true)) :
    a ++ (" " ++ t) ++ parenthesized cR sB ++ (" " ++ t) ++ rc
      ≠ a ++ (" " ++ t) ++ parenthesized true (parenthesized cL sB ++ (" " ++ t) ++ rc) := by
  intro heq
  rcases h with h | ⟨h1, h2⟩
  · subst h
    have hlen := congrArg String.length heq
    simp only [String.length_append, parenthesized_length, if_true] at hlen
    omega
  · subst h1 h2
    simp only [parenthesized, if_true, Bool.false_eq_true, if_false] at heq
    have hd := String.ext_iff.mp heq
    simp only [String.data_append, List.append_assoc, List.append_cancel_left_eq] at hd
    have h1 : ")".data ++ (" ".data ++ (t.data ++ rc.data))
        ≠ " ".data ++ (t.data ++ (rc.data ++ ")".data)) := by
      intro hc
      have := List.head_eq_of_cons_eq hc
      exact absurd this (by decide)
    exact h1 hd

/-- The shape of Imp and Iff chains: when a left operand of the own type is put
in parentheses and a right one is not, the left-nested and the right-nested
chain have different texts. -/
theorem right_chain_differs (a sB rc u v : String) (cL cR : Bool)
    (h : cL = cR ∨ (cL = true ∧ cR = false)) :
    parenthesized true (a ++ (u ++ " " ++ v) ++ parenthesized cR sB) ++ (u ++ " " ++ v) ++ rc
      ≠ a ++ (u ++ " " ++ v) ++ (parenthesized cL sB ++ (u ++ " " ++ v) ++ rc) := by
  intro heq
  rcases h with h | ⟨h1, h2⟩
  · subst h
    have hlen := congrArg String.length heq
    simp only [String.length_append, parenthesized_length, if_true] at hlen
    omega
  · subst h1 h2
    simp only [parenthesized, if_true, Bool.false_eq_true, if_false] at heq
    have hd := String.ext_iff.mp heq
    simp only [String.data_append, List.append_assoc] at hd
    have hd2 : "(".data ++ (a.data ++ (u.data ++ (" ".data ++ v.data)))
          ++ (sB.data ++ (")".data ++ (u.data ++ (" ".data ++ (v.data ++ rc.data)))))
        = (a.data ++ (u.data ++ (" ".data ++ v.data))) ++ "(".data
          ++ (sB.data ++ (")".data ++ (u.data ++ (" ".data ++ (v.data ++ rc.data))))) := by
      simpa only [List.append_assoc] using hd
    have hd3 := List.append_cancel_right hd2
    have hall : ∀ x ∈ a.data ++ (u.data ++ (" ".data ++ v.data)),
        x = "(".data.head (by decide) :=
      List.all_eq_of_cons_eq_append _ _ hd3
    have hsp := hall (" ".data.head (by decide))
      (List.mem_append_right _ (List.mem_append_right _
        (List.mem_append_left _ (List.head_mem _))))
    exact absurd hsp (by decide)

/-- C19 (printing disambiguates nesting). For each of And, Or, Imp and Iff and
all formulas `A`, `B`, `C`, whatever their symbols, the text that
`C(C(A, B), C1)` adds to the stream it is printed to differs from the text that
`C(A, C(B, C1))` adds to it. -/
theorem nesting_disambiguated (A B C : BaseFormula) (ostr : ostream) :
    (BaseFormula.And_ (.And_ A B) C).shown ostr ≠ (BaseFormula.And_ A (.And_ B C)).shown ostr
    ∧ (BaseFormula.Or_ (.Or_ A B) C).shown ostr ≠ (BaseFormula.Or_ A (.Or_ B C)).shown ostr
    ∧ (BaseFormula.Imp (.Imp A B) C).shown ostr ≠ (BaseFormula.Imp A (.Imp B C)).shown ostr
    ∧ (BaseFormula.Iff_ (.Iff_ A B) C).shown ostr
        ≠ (BaseFormula.Iff_ A (.Iff_ B C)).shown ostr := by
  refine ⟨?_, ?_, ?_, ?_⟩
  · have e1 : (BaseFormula.And_ (.And_ A B) C).shown ostr = _ :=
      (BaseFormula.shown_And (.And_ A B) C ostr).trans
        (by rw [BaseFormula.shown_And A B])
    have e2 : (BaseFormula.And_ A (.And_ B C)).shown ostr = _ :=
      (BaseFormula.shown_And A (.And_ B C) ostr).trans
        (by rw [BaseFormula.shown_And B C])
    rw [e1, e2]
    refine left_chain_differs _ (B.shown ostr) _ "& " _ _ ?_
    cases B.getType <;> decide
  · have e1 : (BaseFormula.Or_ (.Or_ A B) C).shown ostr = _ :=
      (BaseFormula.shown_Or (.Or_ A B) C ostr).trans
        (by rw [BaseFormula.shown_Or A B])
    have e2 : (BaseFormula.Or_ A (.Or_ B C)).shown ostr = _ :=
      (BaseFormula.shown_Or A (.Or_ B C) ostr).trans
        (by rw [BaseFormula.shown_Or B C])
    rw [e1, e2]
    refine left_chain_differs _ (B.shown ostr) _ "| " _ _ ?_
    cases B.getType <;> decide
  · have e1 : (BaseFormula.Imp (.Imp A B) C).shown ostr = _ :=
      (BaseFormula.shown_Imp (.Imp A B) C ostr).trans
        (by rw [BaseFormula.shown_Imp A B])
    have e2 : (BaseFormula.Imp A (.Imp B C)).shown ostr = _ :=
      (BaseFormula.shown_Imp A (.Imp B C) ostr).trans
        (by rw [BaseFormula.shown_Imp B C])
    rw [e1, e2]
    refine right_chain_differs _ (B.shown ostr) _ "" "=> " _ _ ?_
    cases B.getType <;> decide
  · have e1 : (BaseFormula.Iff_ (.Iff_ A B) C).shown ostr = _ :=
      (BaseFormula.shown_Iff (.Iff_ A B) C ostr).trans
        (by rw [BaseFormula.shown_Iff A B])
    have e2 : (BaseFormula.Iff_ A (.Iff_ B C)).shown ostr = _ :=
      (BaseFormula.shown_Iff A (.Iff_ B C) ostr).trans
        (by rw [BaseFormula.shown_Iff B C])
    rw [e1, e2]
    refine right_chain_differs _ (B.shown ostr) _ "" "<=> " _ _ ?_
    cases B.getType <;> decide

/-! ## A variable and a nullary function of the same name -/

/-- C21 (Variable / nullary-function collision). For every string `s` and
every string hash, `Variable(s)` and `Function(s, [])` are not `equalTo` each
other in either direction, yet both have the hash code `hash(s)`, with no salt
for the class, and both print `s` and nothing else on the stream they are
handed. -/
theorem variable_nullary_function_collision (H : String → Nat) (s : String)
    (ostr : ostream) (w : Output) :
    (BaseTerm.equalTo (.VariableTerm s) (.FunctionTerm s []) = false
      ∧ BaseTerm.equalTo (.FunctionTerm s []) (.VariableTerm s) = false)
    ∧ (BaseTerm.hashCode H (.VariableTerm s) = H s % 2 ^ 64
      ∧ BaseTerm.hashCode H (.FunctionTerm s []) = H s % 2 ^ 64
      ∧ BaseTerm.hashCode H (.VariableTerm s) = BaseTerm.hashCode H (.FunctionTerm s []))
    ∧ (BaseTerm.printTerm (.VariableTerm s) ostr w = w.put ostr s
      ∧ BaseTerm.printTerm (.FunctionTerm s []) ostr w = w.put ostr s
      ∧ (BaseTerm.VariableTerm s).str = s
      ∧ (BaseTerm.FunctionTerm s []).str = s) := by
  have hv : ∀ (o : ostream) (u : Output),
      BaseTerm.printTerm (.VariableTerm s) o u = u.put o s := by
    intro o u
    rw [BaseTerm.printTerm]
  have hf : ∀ (o : ostream) (u : Output),
      BaseTerm.printTerm (.FunctionTerm s []) o u = u.put o s := by
    intro o u
    rw [BaseTerm.printTerm, List.length_nil, BaseTerm.printLoop]
  have hstr : ∀ u : Output, (u.put .cout s) .cout = u .cout ++ s :=
    fun u => Output.put_same u .cout s
  refine ⟨⟨rfl, rfl⟩, ⟨?_, ?_, ?_⟩, ⟨hv ostr w, hf ostr w, ?_, ?_⟩⟩
  · rw [BaseTerm.hashCode]
    rfl
  · rw [BaseTerm.hashCode, BaseTerm.hashCodeLoop]
    rfl
  · rw [BaseTerm.hashCode, BaseTerm.hashCode, BaseTerm.hashCodeLoop]
  · rw [BaseTerm.str, hv, hstr]
    simp [Output.empty]
  · rw [BaseTerm.str, hf, hstr]
    simp [Output.empty]
